import Mathlib

/-!
Verification of the netopsify.openziti deployment-model compiler
(`plugins/filter/openziti_filters.py`, function `ziti_transform`) and the
fragment loader (`plugins/modules/openziti_loader.py`, functions `deep_merge`,
`extract_names` and the deleted-file branch of `process_file`).

The Python code operates over YAML-derived dynamic values (dicts, lists,
strings, numbers, booleans, None).  We embed those values as the inductive
type `YVal`; Python dicts become insertion-ordered association lists, Python
string operations are modelled on the character-list view of `String`, and
every dynamic failure (KeyError, TypeError, AttributeError) is modelled as an
`Except.error`.  Names of resources are modelled as strings (the code
interpolates them into derived names).
-/

/-- A YAML/Python dynamic value. -/
inductive YVal where
  | str  : String → YVal
  | int  : Int → YVal
  | bool : Bool → YVal
  | null : YVal
  | list : List YVal → YVal
  | map  : List (String × YVal) → YVal
deriving Repr

mutual

def YVal.decEq : (a b : YVal) → Decidable (a = b)
  | .str a, .str b =>
    if h : a = b then isTrue (by rw [h])
    else isFalse (by intro hh; injection hh; contradiction)
  | .str _, .int _ => isFalse nofun
  | .str _, .bool _ => isFalse nofun
  | .str _, .null => isFalse nofun
  | .str _, .list _ => isFalse nofun
  | .str _, .map _ => isFalse nofun
  | .int _, .str _ => isFalse nofun
  | .int a, .int b =>
    if h : a = b then isTrue (by rw [h])
    else isFalse (by intro hh; injection hh; contradiction)
  | .int _, .bool _ => isFalse nofun
  | .int _, .null => isFalse nofun
  | .int _, .list _ => isFalse nofun
  | .int _, .map _ => isFalse nofun
  | .bool _, .str _ => isFalse nofun
  | .bool _, .int _ => isFalse nofun
  | .bool a, .bool b =>
    if h : a = b then isTrue (by rw [h])
    else isFalse (by intro hh; injection hh; contradiction)
  | .bool _, .null => isFalse nofun
  | .bool _, .list _ => isFalse nofun
  | .bool _, .map _ => isFalse nofun
  | .null, .str _ => isFalse nofun
  | .null, .int _ => isFalse nofun
  | .null, .bool _ => isFalse nofun
  | .null, .null => isTrue rfl
  | .null, .list _ => isFalse nofun
  | .null, .map _ => isFalse nofun
  | .list _, .str _ => isFalse nofun
  | .list _, .int _ => isFalse nofun
  | .list _, .bool _ => isFalse nofun
  | .list _, .null => isFalse nofun
  | .list a, .list b =>
    match YVal.decEqList a b with
    | isTrue h => isTrue (by rw [h])
    | isFalse h => isFalse (by intro hh; injection hh; contradiction)
  | .list _, .map _ => isFalse nofun
  | .map _, .str _ => isFalse nofun
  | .map _, .int _ => isFalse nofun
  | .map _, .bool _ => isFalse nofun
  | .map _, .null => isFalse nofun
  | .map _, .list _ => isFalse nofun
  | .map a, .map b =>
    match YVal.decEqMap a b with
    | isTrue h => isTrue (by rw [h])
    | isFalse h => isFalse (by intro hh; injection hh; contradiction)

def YVal.decEqList : (a b : List YVal) → Decidable (a = b)
  | [], [] => isTrue rfl
  | [], _ :: _ => isFalse nofun
  | _ :: _, [] => isFalse nofun
  | a :: as, b :: bs =>
    match YVal.decEq a b, YVal.decEqList as bs with
    | isTrue h1, isTrue h2 => isTrue (by rw [h1, h2])
    | isFalse h1, _ => isFalse (by intro hh; injection hh with h _; exact h1 h)
    | isTrue _, isFalse h2 => isFalse (by intro hh; injection hh with _ h; exact h2 h)

def YVal.decEqMap : (a b : List (String × YVal)) → Decidable (a = b)
  | [], [] => isTrue rfl
  | [], _ :: _ => isFalse nofun
  | _ :: _, [] => isFalse nofun
  | (k, a) :: as, (k', b) :: bs =>
    match String.decEq k k', YVal.decEq a b, YVal.decEqMap as bs with
    | isTrue hk, isTrue h1, isTrue h2 => isTrue (by rw [hk, h1, h2])
    | isFalse hk, _, _ =>
      isFalse (by intro hh; injection hh with h _; injection h; contradiction)
    | isTrue _, isFalse h1, _ =>
      isFalse (by intro hh; injection hh with h _; injection h; contradiction)
    | isTrue _, isTrue _, isFalse h2 =>
      isFalse (by intro hh; injection hh with _ h; exact h2 h)

end

instance : DecidableEq YVal := YVal.decEq

/-- A Python dict: an insertion-ordered association list. -/
abbrev Dict := List (String × YVal)

/-- Lookup of a key in a dict (`d[k]` / `d.get(k)` when the key is present). -/
def dictLookup (d : Dict) (k : String) : Option YVal :=
  match d with
  | [] => none
  | (k', v) :: rest => if k' = k then some v else dictLookup rest k

/-- Python `k in d`. -/
def hasKey (d : Dict) (k : String) : Bool :=
  (dictLookup d k).isSome

/-- Python `d[k] = v`: replaces the value in place if the key exists
(keeping its position, as Python dicts do), else appends the binding. -/
def dictSet (d : Dict) (k : String) (v : YVal) : Dict :=
  match d with
  | [] => [(k, v)]
  | (k', v') :: rest => if k' = k then (k', v) :: rest else (k', v') :: dictSet rest k v

/-- Python `del d[k]`. -/
def dictDel (d : Dict) (k : String) : Dict :=
  match d with
  | [] => []
  | (k', v') :: rest => if k' = k then rest else (k', v') :: dictDel rest k

/-- Python truthiness of a value. -/
def truthy : YVal → Bool
  | .null => false
  | .bool b => b
  | .int n => n != 0
  | .str s => !s.isEmpty
  | .list l => !l.isEmpty
  | .map m => !m.isEmpty

/-- Python `d.get(k)`: `None` when the key is absent. -/
def pyGet (d : Dict) (k : String) : YVal :=
  (dictLookup d k).getD .null

/-- Python `d.get(k, dflt)`. -/
def pyGetD (d : Dict) (k : String) (dflt : YVal) : YVal :=
  (dictLookup d k).getD dflt

/-- Python `a or b`. -/
def pyOr (a b : YVal) : YVal :=
  if truthy a then a else b

/-- Requires a dict; any other value raises (TypeError/AttributeError). -/
def asDict : YVal → Except String Dict
  | .map d => .ok d
  | _ => .error "TypeError: expected a dict"

/-- Requires a list; any other value raises when iterated/extended. -/
def asList : YVal → Except String (List YVal)
  | .list l => .ok l
  | _ => .error "TypeError: expected a list"

/-- Requires a string; any other value raises on the string methods used. -/
def asStr : YVal → Except String String
  | .str s => .ok s
  | _ => .error "TypeError: expected a string"

/-- Python `d[k]`: raises KeyError when the key is absent. -/
def keyGet (d : Dict) (k : String) : Except String YVal :=
  match dictLookup d k with
  | some v => .ok v
  | none => .error "KeyError"

/-- Python `s.startswith(p)`, modelled on the character-list view. -/
def str_startswith (s p : String) : Bool :=
  p.data.isPrefixOf s.data

/-- Python `s.lstrip(c)` for a single strip character: drops every leading
occurrence of `c`. -/
def str_lstrip (s : String) (c : Char) : String :=
  ⟨s.data.dropWhile (· == c)⟩

/-! ## `deep_merge` (openziti_loader.py, lines 134-153)

```python
def deep_merge(target, source):
    for k, v in source.items():
        if isinstance(v, dict):
            node = target.setdefault(k, {})
            deep_merge(node, v)
        elif isinstance(v, list):
            target.setdefault(k, []).extend(v)
        else:
            target[k] = v
    return target
```

The in-place mutation of `target` is modelled by returning the updated dict.
`deep_merge(node, v)` with a non-dict `node` raises on the first item of `v`
(every branch calls a dict method on `node`) and is a no-op when `v` is empty;
`setdefault(k, []).extend(v)` raises when an existing value is not a list.
-/

mutual

def deep_merge (target : Dict) (source : Dict) : Except String Dict :=
  match source with
  | [] => .ok target
  | (k, v) :: rest =>
    match deep_merge_key target k v with
    | .error e => .error e
    | .ok t' => deep_merge t' rest
termination_by sizeOf source

def deep_merge_key (target : Dict) (k : String) (v : YVal) : Except String Dict :=
  match v with
  | .map vs =>
    match dictLookup target k with
    | some (.map nm) =>
      match deep_merge nm vs with
      | .error e => .error e
      | .ok m => .ok (dictSet target k (.map m))
    | some _ =>
      if vs.isEmpty then .ok target
      else .error "AttributeError: merge into non-dict"
    | none =>
      match deep_merge [] vs with
      | .error e => .error e
      | .ok m => .ok (dictSet target k (.map m))
  | .list vl =>
    match dictLookup target k with
    | some (.list tl) => .ok (dictSet target k (.list (tl ++ vl)))
    | some _ => .error "AttributeError: extend on non-list"
    | none => .ok (dictSet target k (.list vl))
  | v => .ok (dictSet target k v)
termination_by sizeOf v

end

example : deep_merge [("services", .list [.str "a"])] [("services", .list [.str "a"])]
    = .ok [("services", .list [.str "a", .str "a"])] := by
  simp [deep_merge, deep_merge_key, dictLookup, dictSet]

/-! ## `ziti_transform` (openziti_filters.py, lines 26-310)

The filter's flat output records are the dict literals the Python code builds;
their fixed keys become structure fields.  Fields that receive an input value
verbatim keep type `YVal`; fields the code builds from strings are `String`.
-/

/-- Output record appended to `identities` (lines 121-127). -/
structure IdentityOut where
  name : YVal
  type : YVal
  role_attributes : List YVal
  enrollment_method : YVal
  state : YVal
deriving DecidableEq, Repr

/-- Output record appended to `configs` (lines 152-157, 185-190). -/
structure ConfigOut where
  name : String
  type : String
  data : Dict
  state : YVal
deriving DecidableEq, Repr

/-- Output record appended to `services` (lines 197-203). -/
structure ServiceOut where
  name : String
  role_attributes : List String
  configs : List String
  encryption_required : YVal
  state : YVal
deriving DecidableEq, Repr

/-- Output record appended to `service_policies` (lines 230-237, 261-268). -/
structure ServicePolicyOut where
  name : String
  type : String
  service_roles : List String
  identity_roles : List String
  semantic : YVal
  state : YVal
deriving DecidableEq, Repr

/-- Output record appended to `router_policies` (lines 295-301). -/
structure RouterPolicyOut where
  name : YVal
  edge_router_roles : YVal
  identity_roles : YVal
  semantic : YVal
  state : YVal
deriving DecidableEq, Repr

/-- Output record appended to `service_router_policies` (lines 284-290). -/
structure SrvRouterPolicyOut where
  name : String
  service_roles : List String
  edge_router_roles : YVal
  semantic : YVal
  state : YVal
deriving DecidableEq, Repr

/-- The six flat lists returned by the filter (lines 303-310). -/
structure ZitiOutput where
  openziti_identities : List IdentityOut
  openziti_configs : List ConfigOut
  openziti_services : List ServiceOut
  openziti_service_policies : List ServicePolicyOut
  openziti_router_policies : List RouterPolicyOut
  openziti_service_router_policies : List SrvRouterPolicyOut
deriving DecidableEq, Repr

/-- The six empty lists returned for a falsy model (lines 73-81). -/
def emptyOutput : ZitiOutput := ⟨[], [], [], [], [], []⟩

/-- Membership test `name in target_names` (line 101): Python `in` compares
by equality, so only a string name can match a list of strings. -/
def nameMem (ts : List String) (name : YVal) : Bool :=
  match name with
  | .str s => ts.contains s
  | _ => false

/-- `should_process` (lines 98-101): `if not target_names: return True;
return name in target_names`.  An empty target list is falsy, so it processes
everything, exactly like `None`. -/
def should_process (target_names : Option (List String)) (name : YVal) : Bool :=
  match target_names with
  | none => true
  | some ts => if ts.isEmpty then true else nameMem ts name

/-- Lines 117-119: `if ident.get('tags'):` append the tags verbatim to the
stripped role attributes. -/
def merge_tags (identD : Dict) (role_attributes : List YVal) :
    Except String (List YVal) :=
  let tagsV := pyGet identD "tags"
  if truthy tagsV then do
    let tags ← asList tagsV
    pure (role_attributes ++ tags)
  else pure role_attributes

/-- One iteration of the identities loop (lines 106-127).  Returns `none` for
a skipped entry (falsy, or filtered out by Smart Mode). -/
def processIdentity (target_names : Option (List String)) (ident : YVal) :
    Except String (Option IdentityOut) :=
  if truthy ident = false then .ok none else do
    let identD ← asDict ident
    let nameV ← keyGet identD "name"
    if should_process target_names nameV = false then .ok none else do
    let raw_role_attributes ← asList (pyOr (pyGet identD "role_attributes") (.list []))
    let role_attributes ← raw_role_attributes.mapM (fun r => do
      let s ← asStr r
      pure (YVal.str (str_lstrip s '#')))
    let role_attributes ← merge_tags identD role_attributes
    .ok (some {
      name := nameV,
      type := pyGetD identD "type" (.str "Device"),
      role_attributes := role_attributes,
      enrollment_method := pyGetD identD "enrollment_method" (.str "ott"),
      state := pyGetD identD "state" (.str "present") })

/-- The identities loop (lines 106-127). -/
def processIdentities (tn : Option (List String)) : List YVal → Except String (List IdentityOut)
  | [] => .ok []
  | e :: rest => do
    let h ← processIdentity tn e
    let t ← processIdentities tn rest
    pure (h.toList ++ t)

/-- Host config defaulting (lines 149-150): `if 'protocol' not in host_data:
host_data['protocol'] = 'tcp'`. -/
def normalize_host (d : Dict) : Dict :=
  if hasKey d "protocol" then d else dictSet d "protocol" (.str "tcp")

/-- Lines 166-171: `port` becomes `portRanges = [{low: port, high: port}]`
(dropping `port`), else `port_ranges` is renamed to `portRanges`. -/
def intercept_ports (d : Dict) : Dict :=
  match dictLookup d "port" with
  | some p => dictDel (dictSet d "portRanges" (.list [.map [("low", p), ("high", p)]])) "port"
  | none =>
    match dictLookup d "port_ranges" with
    | some pr => dictDel (dictSet d "portRanges" pr) "port_ranges"
    | none => d

/-- Lines 174-178: `protocol` becomes `protocols = [protocol]` (dropping
`protocol`), else `protocols` defaults to `["tcp"]` when absent. -/
def intercept_protocols (d : Dict) : Dict :=
  match dictLookup d "protocol" with
  | some p => dictDel (dictSet d "protocols" (.list [p])) "protocol"
  | none => if hasKey d "protocols" then d else dictSet d "protocols" (.list [.str "tcp"])

/-- Lines 181-183: `address` becomes `addresses = [address]` (dropping
`address`). -/
def intercept_addresses (d : Dict) : Dict :=
  match dictLookup d "address" with
  | some a => dictDel (dictSet d "addresses" (.list [a])) "address"
  | none => d

/-- Intercept normalization (lines 165-183), applied in place on the
intercept dict, in source order: ports, then protocols, then addresses. -/
def normalize_intercept (d : Dict) : Dict :=
  intercept_addresses (intercept_protocols (intercept_ports d))

/-- Role normalization in the bind/dial loops (lines 213-217, 223-227):
tokens already starting with `@` or `#` are kept, others get a `#`. -/
def normalize_role (r : YVal) : Except String String := do
  let s ← asStr r
  if str_startswith s "@" || str_startswith s "#" then pure s
  else pure ("#" ++ s)

/-- Lines 218-219 / 249-250: `if 'identity' in pol:` append `"#" + identity`
to the collected identity roles. -/
def append_identity_role (pol : Dict) (id_roles : List String) :
    Except String (List String) :=
  match dictLookup pol "identity" with
  | some v => do
    let s ← asStr v
    pure (id_roles ++ ["#" ++ s])
  | none => pure id_roles

/-- One bind or dial policy (lines 209-237 / 240-268). -/
def process_bind_dial (svc_name ptype suffix : String) (polV : YVal) (svc_state : YVal) :
    Except String ServicePolicyOut := do
  let pol ← asDict polV
  let raw_id_roles ← asList (pyOr (pyGet pol "roles") (.list []))
  let id_roles ← raw_id_roles.mapM normalize_role
  let id_roles ← append_identity_role pol id_roles
  let raw_extra ← asList (pyOr (pyGet pol "service_roles") (.list []))
  let extra ← raw_extra.mapM normalize_role
  pure {
    name := svc_name ++ suffix,
    type := ptype,
    service_roles := ("#" ++ svc_name) :: extra,
    identity_roles := id_roles,
    semantic := pyGetD pol "semantic" (.str "AnyOf"),
    state := svc_state }

/-- Builds the service edge router policy record (lines 282-290). -/
def mk_service_router_policy (svc_name : String) (default_router_roles svc_state : YVal)
    (v : YVal) : Except String SrvRouterPolicyOut := do
  let d ← asDict v
  pure {
    name := svc_name ++ "-router",
    service_roles := ["#" ++ svc_name],
    edge_router_roles := pyOr (pyGet d "roles") default_router_roles,
    semantic := pyGetD d "semantic" (.str "AnyOf"),
    state := svc_state }

/-- The three-way service router policy decision (lines 271-290):
`policies.get('router')` equal to `False` suppresses, any non-`None` value
enables, and `None` (absent) defers to `defaults.create_router_policies`
with an empty map. -/
def process_router_policy (svc_name : String)
    (default_router_roles default_create_router_policies : YVal)
    (router_pol_def svc_state : YVal) : Except String (Option SrvRouterPolicyOut) :=
  match router_pol_def with
  | .bool false => .ok none
  | .null =>
    if truthy default_create_router_policies then
      (mk_service_router_policy svc_name default_router_roles svc_state (.map [])).map some
    else .ok none
  | v => (mk_service_router_policy svc_name default_router_roles svc_state v).map some

/-- Everything one iteration of the services loop produces: the (possibly
mutated in place) service entry and the records appended to the output
lists. -/
structure SvcResult where
  mutated : YVal
  configs : List ConfigOut
  service : Option ServiceOut
  policies : List ServicePolicyOut
  routerPolicy : Option SrvRouterPolicyOut
deriving DecidableEq, Repr

/-- The host config block (lines 146-158): emitted iff `svc.get('host')` is
truthy; defaults `protocol` to `"tcp"` in place.  Returns the (possibly
mutated) service dict, the configs appended, and the config names
collected. -/
def host_block (svc_name : String) (svc_state : YVal) (svcD : Dict) :
    Except String (Dict × List ConfigOut × List String) :=
  let hostV := pyGet svcD "host"
  if truthy hostV then do
    let hd ← asDict hostV
    let hd := normalize_host hd
    pure (dictSet svcD "host" (.map hd),
      [({ name := svc_name ++ "-host-v1", type := "host.v1", data := hd,
          state := svc_state } : ConfigOut)],
      [svc_name ++ "-host-v1"])
  else pure (svcD, [], [])

/-- The intercept config block (lines 161-191): emitted iff
`svc.get('intercept')` is truthy; normalized in place. -/
def intercept_block (svc_name : String) (svc_state : YVal) (svcD : Dict) :
    Except String (Dict × List ConfigOut × List String) :=
  let intV := pyGet svcD "intercept"
  if truthy intV then do
    let idt ← asDict intV
    let idt := normalize_intercept idt
    pure (dictSet svcD "intercept" (.map idt),
      [({ name := svc_name ++ "-intercept-v1", type := "intercept.v1", data := idt,
          state := svc_state } : ConfigOut)],
      [svc_name ++ "-intercept-v1"])
  else pure (svcD, [], [])

/-- The bind/dial dispatch (lines 209 / 240): a policy record is emitted iff
the corresponding sub-declaration is truthy. -/
def bind_dial_block (svc_name ptype suffix : String) (policiesD : Dict) (key : String)
    (svc_state : YVal) : Except String (List ServicePolicyOut) :=
  let v := pyGet policiesD key
  if truthy v then do
    let p ← process_bind_dial svc_name ptype suffix v svc_state
    pure [p]
  else pure []

/-- One iteration of the services loop (lines 130-290).  The host/intercept
normalizations mutate the service's own sub-dicts, so the entry is returned
alongside the produced records. -/
def processService (tn : Option (List String))
    (default_router_roles default_encryption default_create_router_policies : YVal)
    (svc : YVal) : Except String SvcResult :=
  if truthy svc = false then .ok ⟨svc, [], none, [], none⟩ else do
    let svcD ← asDict svc
    let nameV ← keyGet svcD "name"
    if should_process tn nameV = false then .ok ⟨svc, [], none, [], none⟩ else do
    let svc_name ← asStr nameV
    let svc_state := pyGetD svcD "state" (.str "present")
    let (svcD, hostConfigs, hostNames) ← host_block svc_name svc_state svcD
    let (svcD, intConfigs, intNames) ← intercept_block svc_name svc_state svcD
    let svc_config_names := hostNames ++ intNames
    let raw_attrs ← asList (pyOr (pyGet svcD "role_attributes")
        (pyOr (pyGet svcD "roles") (.list [.str svc_name])))
    let svc_role_attrs ← raw_attrs.mapM (fun r => do
      let s ← asStr r
      pure (str_lstrip s '#'))
    let serviceRec : ServiceOut := {
      name := svc_name,
      role_attributes := svc_role_attrs,
      configs := svc_config_names,
      encryption_required := pyGetD svcD "encryption" default_encryption,
      state := svc_state }
    let policiesD ← asDict (pyOr (pyGet svcD "policies") (.map []))
    let bindPols ← bind_dial_block svc_name "Bind" "-bind" policiesD "bind" svc_state
    let dialPols ← bind_dial_block svc_name "Dial" "-dial" policiesD "dial" svc_state
    let srp ← process_router_policy svc_name default_router_roles
        default_create_router_policies (pyGet policiesD "router") svc_state
    .ok ⟨.map svcD, hostConfigs ++ intConfigs, some serviceRec, bindPols ++ dialPols, srp⟩

/-- Accumulated results of the services loop. -/
structure SvcAcc where
  newSvcs : List YVal
  configs : List ConfigOut
  services : List ServiceOut
  policies : List ServicePolicyOut
  routerPolicies : List SrvRouterPolicyOut
deriving DecidableEq, Repr

/-- The services loop (lines 130-290). -/
def processServices (tn : Option (List String)) (drr denc dcrp : YVal) :
    List YVal → Except String SvcAcc
  | [] => .ok ⟨[], [], [], [], []⟩
  | e :: rest => do
    let r ← processService tn drr denc dcrp e
    let acc ← processServices tn drr denc dcrp rest
    pure ⟨r.mutated :: acc.newSvcs, r.configs ++ acc.configs,
      r.service.toList ++ acc.services, r.policies ++ acc.policies,
      r.routerPolicy.toList ++ acc.routerPolicies⟩

/-- One iteration of the global router policies loop (lines 293-301). -/
def processRouterPolicy (rp : YVal) : Except String (Option RouterPolicyOut) :=
  if truthy rp = false then .ok none else do
    let d ← asDict rp
    let nameV ← keyGet d "name"
    .ok (some {
      name := nameV,
      edge_router_roles := pyOr (pyGet d "edge_router_roles") (.list [.str "#all"]),
      identity_roles := pyOr (pyGet d "identity_roles") (.list [.str "#all"]),
      semantic := pyGetD d "semantic" (.str "AnyOf"),
      state := pyGetD d "state" (.str "present") })

/-- The global router policies loop (lines 293-301), never filtered by
`target_names`. -/
def processRouterPolicies : List YVal → Except String (List RouterPolicyOut)
  | [] => .ok []
  | e :: rest => do
    let h ← processRouterPolicy e
    let t ← processRouterPolicies rest
    pure (h.toList ++ t)

/-- `ziti_transform` (lines 26-310).  Besides the returned dict of six lists,
the Python function mutates `deployment_data` in place (the host/intercept
normalizations); the post-call value of `deployment_data` is returned as the
first component. -/
def ziti_transform (deployment_data : YVal) (target_names : Option (List String)) :
    Except String (YVal × ZitiOutput) :=
  if truthy deployment_data = false then
    .ok (deployment_data, emptyOutput)
  else do
    let dd ← asDict deployment_data
    let defaults ← asDict (pyOr (pyGet dd "defaults") (.map []))
    let default_router_roles := pyOr (pyGet defaults "router_roles") (.list [.str "#all"])
    let default_encryption := pyGetD defaults "encryption" (.bool true)
    let default_create_router_policies := pyGetD defaults "create_router_policies" (.bool false)
    let all_identities ← asList (pyOr (pyGet dd "identities") (.list []))
    let identities ← processIdentities target_names all_identities
    let svcEntries ← asList (pyOr (pyGet dd "services") (.list []))
    let acc ← processServices target_names default_router_roles default_encryption
        default_create_router_policies svcEntries
    let rpEntries ← asList (pyOr (pyGet dd "router_policies") (.list []))
    let router_policies ← processRouterPolicies rpEntries
    let dd' := if truthy (pyGet dd "services") then dictSet dd "services" (.list acc.newSvcs) else dd
    .ok (.map dd', {
      openziti_identities := identities,
      openziti_configs := acc.configs,
      openziti_services := acc.services,
      openziti_service_policies := acc.policies,
      openziti_router_policies := router_policies,
      openziti_service_router_policies := acc.routerPolicies })

/-! ## Loader: `extract_names` (lines 105-132) and the deleted-file branch of
`process_file` (openziti_loader.py, lines 224-256) -/

/-- The inner name-collection loop of `extract_names`: for each entry,
`if 'name' in e: names.append(e['name'])`. -/
def namesOfEntries : List YVal → Except String (List YVal)
  | [] => .ok []
  | e :: rest => do
    let d ← asDict e
    let t ← namesOfEntries rest
    match dictLookup d "name" with
    | some n => pure (n :: t)
    | none => pure t

/-- One key's name collection in `extract_names` (lines 122-130):
`if key in root: for e in root[key]: if 'name' in e: names.append(e['name'])`. -/
def names_under (root : Dict) (key : String) : Except String (List YVal) :=
  if hasKey root key then do
    let l ← asList (pyGet root key)
    namesOfEntries l
  else pure []

/-- `extract_names` (lines 105-132): top-level `name` fields of the entries
under `services` then `identities`, below the optional `ziti_deployment`
wrapper key. -/
def extract_names (data : YVal) : Except String (List YVal) :=
  if truthy data = false then .ok [] else do
    let d ← asDict data
    let root ← asDict (pyGetD d "ziti_deployment" data)
    let svcNames ← names_under root "services"
    let idNames ← names_under root "identities"
    pure (svcNames ++ idNames)

/-- The state-forcing loop of `process_file` (lines 232-237): set
`e['state'] = 'absent'` on every entry of a sequence. -/
def inject_absent : List YVal → Except String (List YVal)
  | [] => .ok []
  | e :: rest => do
    let d ← asDict e
    let t ← inject_absent rest
    pure (.map (dictSet d "state" (.str "absent")) :: t)

/-- One key's state-forcing step (lines 232-234 / 235-237):
`if key in root: for e in root[key]: e['state'] = 'absent'`. -/
def force_absent_key (key : String) (root : Dict) : Except String Dict :=
  if hasKey root key then do
    let l ← asList (pyGet root key)
    let l' ← inject_absent l
    pure (dictSet root key (.list l'))
  else pure root

/-- Lines 231-237: force `state: absent` on every service and identity entry
under the root of a recovered deleted fragment. -/
def force_absent_root (root : Dict) : Except String Dict := do
  let root' ← force_absent_key "services" root
  force_absent_key "identities" root'

def process_file_deleted (parsed : YVal) : Except String (Option (Dict × List YVal)) :=
  let file_data := pyOr parsed (.map [])
  match (do
      let fd ← asDict file_data
      let root ← asDict (pyGetD fd "ziti_deployment" file_data)
      let root' ← force_absent_root root
      let fd' : Dict :=
        if hasKey fd "ziti_deployment" then dictSet fd "ziti_deployment" (.map root') else root'
      pure fd' : Except String Dict) with
  | .error _ => .ok none
  | .ok fd' => do
    let d2m ← asDict (pyGetD fd' "ziti_deployment" (.map fd'))
    let names ← extract_names (.map fd')
    pure (some (d2m, names))

/-! ## Basic lemmas about the dict operations -/

theorem except_bind_ok {α β : Type} (x : Except String α) (f : α → Except String β) (b : β) :
    (x >>= f = .ok b) ↔ ∃ a, x = .ok a ∧ f a = .ok b := by
  cases x <;> simp [Bind.bind, Except.bind]

theorem asDict_ok {v : YVal} {d : Dict} (h : asDict v = .ok d) : v = .map d := by
  cases v <;> simp [asDict] at h <;> simp [h]

theorem asList_ok {v : YVal} {l : List YVal} (h : asList v = .ok l) : v = .list l := by
  cases v <;> simp [asList] at h <;> simp [h]

theorem asStr_ok {v : YVal} {s : String} (h : asStr v = .ok s) : v = .str s := by
  cases v <;> simp [asStr] at h <;> simp [h]

theorem dictLookup_dictSet_self (d : Dict) (k : String) (v : YVal) :
    dictLookup (dictSet d k v) k = some v := by
  induction d with
  | nil => simp [dictSet, dictLookup]
  | cons hd tl ih =>
    obtain ⟨k', v'⟩ := hd
    by_cases h : k' = k <;> simp [dictSet, dictLookup, h, ih]

theorem dictLookup_dictSet_ne (d : Dict) (k k' : String) (v : YVal) (h : k' ≠ k) :
    dictLookup (dictSet d k v) k' = dictLookup d k' := by
  induction d with
  | nil => simp [dictSet, dictLookup, Ne.symm h]
  | cons hd tl ih =>
    obtain ⟨k'', v''⟩ := hd
    by_cases h2 : k'' = k <;> by_cases h3 : k'' = k' <;>
      simp_all [dictSet, dictLookup]

theorem dictLookup_dictDel_ne (d : Dict) (k k' : String) (h : k' ≠ k) :
    dictLookup (dictDel d k) k' = dictLookup d k' := by
  induction d with
  | nil => simp [dictDel]
  | cons hd tl ih =>
    obtain ⟨k'', v''⟩ := hd
    by_cases h2 : k'' = k <;> by_cases h3 : k'' = k' <;>
      simp_all [dictDel, dictLookup]

theorem dictLookup_eq_none_of_not_mem (d : Dict) (k : String) (h : k ∉ d.map Prod.fst) :
    dictLookup d k = none := by
  induction d with
  | nil => simp [dictLookup]
  | cons hd tl ih =>
    obtain ⟨k', v'⟩ := hd
    simp only [List.map_cons, List.mem_cons] at h
    push_neg at h
    simp [dictLookup, Ne.symm h.1, ih h.2]

theorem mem_of_dictLookup_some {d : Dict} {k : String} {v : YVal}
    (h : dictLookup d k = some v) : k ∈ d.map Prod.fst := by
  induction d with
  | nil => simp [dictLookup] at h
  | cons hd tl ih =>
    obtain ⟨k', v'⟩ := hd
    by_cases h2 : k' = k
    · simp [h2]
    · simp only [dictLookup, if_neg h2] at h
      simp [ih h]

theorem dictLookup_dictDel_self (d : Dict) (k : String)
    (h : (d.map Prod.fst).Nodup) : dictLookup (dictDel d k) k = none := by
  induction d with
  | nil => simp [dictDel, dictLookup]
  | cons hd tl ih =>
    obtain ⟨k', v'⟩ := hd
    simp only [List.map_cons, List.nodup_cons] at h
    by_cases h2 : k' = k
    · subst h2
      simp only [dictDel, if_pos rfl]
      exact dictLookup_eq_none_of_not_mem tl k' h.1
    · simp [dictDel, dictLookup, h2, ih h.2]

theorem mem_keys_dictSet {d : Dict} {k k' : String} {v : YVal}
    (h : k' ∈ (dictSet d k v).map Prod.fst) : k' ∈ d.map Prod.fst ∨ k' = k := by
  induction d with
  | nil => simp [dictSet] at h; simp [h]
  | cons hd tl ih =>
    obtain ⟨k'', v''⟩ := hd
    by_cases h2 : k'' = k
    · simp only [dictSet, if_pos h2] at h
      simp only [List.map_cons, List.mem_cons] at h ⊢
      tauto
    · simp only [dictSet, if_neg h2] at h
      simp only [List.map_cons, List.mem_cons] at h ⊢
      rcases h with h | h
      · tauto
      · rcases ih h with h | h <;> tauto

theorem nodup_dictSet (d : Dict) (k : String) (v : YVal)
    (h : (d.map Prod.fst).Nodup) : ((dictSet d k v).map Prod.fst).Nodup := by
  induction d with
  | nil => simp [dictSet]
  | cons hd tl ih =>
    obtain ⟨k', v'⟩ := hd
    simp only [List.map_cons, List.nodup_cons] at h
    by_cases h2 : k' = k
    · simp only [dictSet, if_pos h2, List.map_cons, List.nodup_cons]
      exact ⟨h.1, h.2⟩
    · simp only [dictSet, if_neg h2, List.map_cons, List.nodup_cons]
      refine ⟨fun hmem => ?_, ih h.2⟩
      rcases mem_keys_dictSet hmem with hm | hm
      · exact h.1 hm
      · exact h2 hm

theorem mem_keys_dictDel {d : Dict} {k k' : String}
    (h : k' ∈ (dictDel d k).map Prod.fst) : k' ∈ d.map Prod.fst := by
  induction d with
  | nil => simp [dictDel] at h
  | cons hd tl ih =>
    obtain ⟨k'', v''⟩ := hd
    by_cases h2 : k'' = k
    · simp only [dictDel, if_pos h2] at h
      simp [h]
    · simp only [dictDel, if_neg h2] at h
      simp only [List.map_cons, List.mem_cons] at h ⊢
      rcases h with h | h
      · tauto
      · exact Or.inr (ih h)

theorem nodup_dictDel (d : Dict) (k : String)
    (h : (d.map Prod.fst).Nodup) : ((dictDel d k).map Prod.fst).Nodup := by
  induction d with
  | nil => simp [dictDel]
  | cons hd tl ih =>
    obtain ⟨k', v'⟩ := hd
    simp only [List.map_cons, List.nodup_cons] at h
    by_cases h2 : k' = k
    · simp only [dictDel, if_pos h2]
      exact h.2
    · simp only [dictDel, if_neg h2, List.map_cons, List.nodup_cons]
      exact ⟨fun hmem => h.1 (mem_keys_dictDel hmem), ih h.2⟩

/-! ## Claim C10 -/

/-- C10: for every empty or absent deployment model (None or empty map —
any falsy model), the compiler returns six empty lists; since such a model
carries no `defaults` structure, the result does not depend on defaults. -/
theorem c10_empty_model_compiles_to_empty_lists (m : YVal) (t : Option (List String))
    (h : truthy m = false) : ziti_transform m t = .ok (m, emptyOutput) := by
  unfold ziti_transform
  simp [h]

theorem c10_witness :
    truthy YVal.null = false ∧ truthy (YVal.map []) = false ∧
    ziti_transform .null none = .ok (.null, emptyOutput) ∧
    ziti_transform (.map []) (some ["x"]) = .ok (.map [], emptyOutput) :=
  ⟨rfl, rfl, c10_empty_model_compiles_to_empty_lists _ _ rfl,
   c10_empty_model_compiles_to_empty_lists _ _ rfl⟩

/-! ## Claim C5 -/

theorem deep_merge_key_lookup_ne {t : Dict} {k : String} {v : YVal} {t' : Dict}
    (h : deep_merge_key t k v = .ok t') {k' : String} (hne : k' ≠ k) :
    dictLookup t' k' = dictLookup t k' := by
  rw [deep_merge_key.eq_def] at h
  split at h
  all_goals repeat' split at h
  all_goals try simp at h
  all_goals cases h
  all_goals first
    | rfl
    | exact dictLookup_dictSet_ne _ _ _ _ hne

theorem deep_merge_lookup_of_not_in_source {s : Dict} :
    ∀ {t r : Dict}, deep_merge t s = .ok r → ∀ {k : String}, dictLookup s k = none →
    dictLookup r k = dictLookup t k := by
  induction s with
  | nil =>
    intro t r h k hk
    rw [deep_merge] at h
    cases h
    rfl
  | cons hd tl ih =>
    obtain ⟨k', v'⟩ := hd
    intro t r h k hk
    rw [deep_merge] at h
    split at h
    · simp at h
    · rename_i t' ht'
      have hne : k ≠ k' := by
        intro hh
        subst hh
        simp [dictLookup] at hk
      have htl : dictLookup tl k = none := by
        simpa [dictLookup, Ne.symm hne] using hk
      rw [ih h htl, deep_merge_key_lookup_ne ht' hne]

/-- C5: merging a source carrying a sequence at key `k` appends that sequence
to the accumulator's sequence at `k` (creating the entry when absent), never
replacing or deduplicating — so merging the same one-entry fragment twice
yields a two-entry (duplicated) sequence. -/
theorem c5_deep_merge_appends_sequences (target source r : Dict) (k : String) (v : List YVal)
    (hok : deep_merge target source = .ok r)
    (hnd : (source.map Prod.fst).Nodup)
    (hsrc : dictLookup source k = some (.list v)) :
    (dictLookup target k = none → dictLookup r k = some (.list v)) ∧
    (∀ l, dictLookup target k = some (.list l) → dictLookup r k = some (.list (l ++ v))) := by
  induction source generalizing target with
  | nil => simp [dictLookup] at hsrc
  | cons hd tl ih =>
    obtain ⟨k', v'⟩ := hd
    rw [deep_merge] at hok
    split at hok
    · simp at hok
    · rename_i t' ht'
      simp only [List.map_cons, List.nodup_cons] at hnd
      by_cases hkk : k' = k
      · subst hkk
        have hv' : v' = .list v := by
          simpa [dictLookup] using hsrc
        subst hv'
        have htl_none : dictLookup tl k' = none :=
          dictLookup_eq_none_of_not_mem tl k' hnd.1
        have hr : dictLookup r k' = dictLookup t' k' :=
          deep_merge_lookup_of_not_in_source hok htl_none
        constructor
        · intro htn
          rw [deep_merge_key.eq_def, htn] at ht'
          simp at ht'
          subst ht'
          rw [hr, dictLookup_dictSet_self]
        · intro l htn
          rw [deep_merge_key.eq_def, htn] at ht'
          simp at ht'
          subst ht'
          rw [hr, dictLookup_dictSet_self]
      · have hsrc' : dictLookup tl k = some (.list v) := by
          simpa [dictLookup, hkk] using hsrc
        have hlook : dictLookup t' k = dictLookup target k :=
          deep_merge_key_lookup_ne ht' (fun hh => hkk hh.symm)
        obtain ⟨h1, h2⟩ := ih t' hok hnd.2 hsrc'
        exact ⟨fun htn => h1 (by rw [hlook, htn]),
               fun l htn => h2 l (by rw [hlook, htn])⟩

theorem c5_witness :
    dictLookup [("services",
        YVal.list [YVal.map [("name", YVal.str "a")], YVal.map [("name", YVal.str "a")]])]
      "services" =
      some (.list ([YVal.map [("name", YVal.str "a")]] ++ [YVal.map [("name", YVal.str "a")]])) := by
  have hok : deep_merge [("services", YVal.list [YVal.map [("name", YVal.str "a")]])]
      [("services", YVal.list [YVal.map [("name", YVal.str "a")]])] =
      .ok [("services",
        YVal.list [YVal.map [("name", YVal.str "a")], YVal.map [("name", YVal.str "a")]])] := by
    simp [deep_merge, deep_merge_key, dictLookup, dictSet]
  exact (c5_deep_merge_appends_sequences _ _ _ "services" _ hok (by simp)
    (by simp [dictLookup])).2 _ (by simp [dictLookup])

/-! ## Claim C8 -/

theorem intercept_ports_lookup_ne (d : Dict) (k : String)
    (h1 : k ≠ "port") (h2 : k ≠ "port_ranges") (h3 : k ≠ "portRanges") :
    dictLookup (intercept_ports d) k = dictLookup d k := by
  unfold intercept_ports
  split
  · rw [dictLookup_dictDel_ne _ _ _ h1, dictLookup_dictSet_ne _ _ _ _ h3]
  · split
    · rw [dictLookup_dictDel_ne _ _ _ h2, dictLookup_dictSet_ne _ _ _ _ h3]
    · rfl

theorem intercept_ports_nodup (d : Dict) (h : (d.map Prod.fst).Nodup) :
    ((intercept_ports d).map Prod.fst).Nodup := by
  unfold intercept_ports
  split
  · exact nodup_dictDel _ _ (nodup_dictSet _ _ _ h)
  · split
    · exact nodup_dictDel _ _ (nodup_dictSet _ _ _ h)
    · exact h

theorem intercept_protocols_lookup_ne (d : Dict) (k : String)
    (h1 : k ≠ "protocol") (h2 : k ≠ "protocols") :
    dictLookup (intercept_protocols d) k = dictLookup d k := by
  unfold intercept_protocols
  split
  · rw [dictLookup_dictDel_ne _ _ _ h1, dictLookup_dictSet_ne _ _ _ _ h2]
  · split
    · rfl
    · rw [dictLookup_dictSet_ne _ _ _ _ h2]

theorem intercept_protocols_nodup (d : Dict) (h : (d.map Prod.fst).Nodup) :
    ((intercept_protocols d).map Prod.fst).Nodup := by
  unfold intercept_protocols
  split
  · exact nodup_dictDel _ _ (nodup_dictSet _ _ _ h)
  · split
    · exact h
    · exact nodup_dictSet _ _ _ h

theorem intercept_addresses_lookup_ne (d : Dict) (k : String)
    (h1 : k ≠ "address") (h2 : k ≠ "addresses") :
    dictLookup (intercept_addresses d) k = dictLookup d k := by
  unfold intercept_addresses
  split
  · rw [dictLookup_dictDel_ne _ _ _ h1, dictLookup_dictSet_ne _ _ _ _ h2]
  · rfl

/-- C8: the emitted intercept config data is the declared intercept map
normalized in place — a single `port` value `p` becomes
`portRanges = [{low: p, high: p}]` with `port` removed (else `port_ranges`
is renamed `portRanges`); a single `protocol` value becomes
`protocols = [protocol]` with `protocol` removed, else `protocols` defaults
to `["tcp"]` when absent; a single `address` value becomes
`addresses = [address]` with `address` removed. -/
theorem c8_intercept_normalization (d : Dict) (hnd : (d.map Prod.fst).Nodup) :
    (∀ p, dictLookup d "port" = some p →
      dictLookup (normalize_intercept d) "portRanges"
          = some (.list [.map [("low", p), ("high", p)]]) ∧
      dictLookup (normalize_intercept d) "port" = none) ∧
    (dictLookup d "port" = none → ∀ pr, dictLookup d "port_ranges" = some pr →
      dictLookup (normalize_intercept d) "portRanges" = some pr ∧
      dictLookup (normalize_intercept d) "port_ranges" = none) ∧
    (∀ p, dictLookup d "protocol" = some p →
      dictLookup (normalize_intercept d) "protocols" = some (.list [p]) ∧
      dictLookup (normalize_intercept d) "protocol" = none) ∧
    (dictLookup d "protocol" = none → dictLookup d "protocols" = none →
      dictLookup (normalize_intercept d) "protocols" = some (.list [.str "tcp"])) ∧
    (∀ a, dictLookup d "address" = some a →
      dictLookup (normalize_intercept d) "addresses" = some (.list [a]) ∧
      dictLookup (normalize_intercept d) "address" = none) := by
  have nd1 : (((intercept_ports d).map Prod.fst)).Nodup := intercept_ports_nodup d hnd
  have nd2 : (((intercept_protocols (intercept_ports d)).map Prod.fst)).Nodup :=
    intercept_protocols_nodup _ nd1
  refine ⟨fun p hp => ?_, fun hpn pr hpr => ?_, fun p hp => ?_, fun hpn hpsn => ?_,
    fun a ha => ?_⟩
  · have h1 : dictLookup (intercept_ports d) "portRanges"
        = some (.list [.map [("low", p), ("high", p)]]) := by
      unfold intercept_ports
      rw [hp]
      rw [dictLookup_dictDel_ne _ _ _ (by decide), dictLookup_dictSet_self]
    have h2 : dictLookup (intercept_ports d) "port" = none := by
      unfold intercept_ports
      rw [hp]
      exact dictLookup_dictDel_self _ _ (nodup_dictSet _ _ _ hnd)
    unfold normalize_intercept
    rw [intercept_addresses_lookup_ne _ _ (by decide) (by decide),
        intercept_protocols_lookup_ne _ _ (by decide) (by decide), h1,
        intercept_addresses_lookup_ne _ _ (by decide) (by decide),
        intercept_protocols_lookup_ne _ _ (by decide) (by decide), h2]
    exact ⟨rfl, rfl⟩
  · have h1 : dictLookup (intercept_ports d) "portRanges" = some pr := by
      unfold intercept_ports
      rw [hpn, hpr]
      rw [dictLookup_dictDel_ne _ _ _ (by decide), dictLookup_dictSet_self]
    have h2 : dictLookup (intercept_ports d) "port_ranges" = none := by
      unfold intercept_ports
      rw [hpn, hpr]
      exact dictLookup_dictDel_self _ _ (nodup_dictSet _ _ _ hnd)
    unfold normalize_intercept
    rw [intercept_addresses_lookup_ne _ _ (by decide) (by decide),
        intercept_protocols_lookup_ne _ _ (by decide) (by decide), h1,
        intercept_addresses_lookup_ne _ _ (by decide) (by decide),
        intercept_protocols_lookup_ne _ _ (by decide) (by decide), h2]
    exact ⟨rfl, rfl⟩
  · have hp1 : dictLookup (intercept_ports d) "protocol" = some p := by
      rw [intercept_ports_lookup_ne _ _ (by decide) (by decide) (by decide), hp]
    have h1 : dictLookup (intercept_protocols (intercept_ports d)) "protocols"
        = some (.list [p]) := by
      unfold intercept_protocols
      rw [hp1]
      rw [dictLookup_dictDel_ne _ _ _ (by decide), dictLookup_dictSet_self]
    have h2 : dictLookup (intercept_protocols (intercept_ports d)) "protocol" = none := by
      unfold intercept_protocols
      rw [hp1]
      exact dictLookup_dictDel_self _ _ (nodup_dictSet _ _ _ nd1)
    unfold normalize_intercept
    rw [intercept_addresses_lookup_ne _ _ (by decide) (by decide), h1,
        intercept_addresses_lookup_ne _ _ (by decide) (by decide), h2]
    exact ⟨rfl, rfl⟩
  · have hp1 : dictLookup (intercept_ports d) "protocol" = none := by
      rw [intercept_ports_lookup_ne _ _ (by decide) (by decide) (by decide), hpn]
    have hps1 : dictLookup (intercept_ports d) "protocols" = none := by
      rw [intercept_ports_lookup_ne _ _ (by decide) (by decide) (by decide), hpsn]
    have h1 : dictLookup (intercept_protocols (intercept_ports d)) "protocols"
        = some (.list [.str "tcp"]) := by
      unfold intercept_protocols
      rw [hp1]
      have : hasKey (intercept_ports d) "protocols" = false := by
        unfold hasKey
        rw [hps1]
        rfl
      rw [this]
      simp only [Bool.false_eq_true, if_false]
      exact dictLookup_dictSet_self _ _ _
    unfold normalize_intercept
    rw [intercept_addresses_lookup_ne _ _ (by decide) (by decide), h1]
  · have ha2 : dictLookup (intercept_protocols (intercept_ports d)) "address" = some a := by
      rw [intercept_protocols_lookup_ne _ _ (by decide) (by decide),
          intercept_ports_lookup_ne _ _ (by decide) (by decide) (by decide), ha]
    constructor
    · unfold normalize_intercept intercept_addresses
      rw [ha2]
      rw [dictLookup_dictDel_ne _ _ _ (by decide), dictLookup_dictSet_self]
    · unfold normalize_intercept intercept_addresses
      rw [ha2]
      exact dictLookup_dictDel_self _ _ (nodup_dictSet _ _ _ nd2)

theorem c8_witness :
    dictLookup (normalize_intercept [("port", .int 8080)]) "portRanges"
        = some (.list [.map [("low", .int 8080), ("high", .int 8080)]]) ∧
    dictLookup (normalize_intercept [("port", .int 8080)]) "port" = none ∧
    dictLookup (normalize_intercept [("port", .int 8080)]) "protocols"
        = some (.list [.str "tcp"]) ∧
    dictLookup (normalize_intercept
        [("port_ranges", .list [.int 1]), ("protocol", .str "udp"), ("address", .str "a.b")])
      "portRanges" = some (.list [.int 1]) ∧
    dictLookup (normalize_intercept
        [("port_ranges", .list [.int 1]), ("protocol", .str "udp"), ("address", .str "a.b")])
      "protocols" = some (.list [.str "udp"]) ∧
    dictLookup (normalize_intercept
        [("port_ranges", .list [.int 1]), ("protocol", .str "udp"), ("address", .str "a.b")])
      "addresses" = some (.list [.str "a.b"]) := by
  have h1 := c8_intercept_normalization [("port", .int 8080)] (by decide)
  have h2 := c8_intercept_normalization
    [("port_ranges", .list [.int 1]), ("protocol", .str "udp"), ("address", .str "a.b")]
    (by decide)
  exact ⟨(h1.1 _ rfl).1, (h1.1 _ rfl).2, h1.2.2.2.1 rfl rfl,
    (h2.2.1 rfl _ rfl).1, (h2.2.2.1 _ rfl).1, (h2.2.2.2.2 _ rfl).1⟩

/-! ## Claim C9 -/

theorem except_map_ok {α β : Type} (x : Except String α) (f : α → β) (b : β) :
    x.map f = .ok b ↔ ∃ a, x = .ok a ∧ f a = b := by
  cases x <;> simp [Except.map]

/-- The service's own state, as the services loop reads it (line 139):
`svc.get('state', 'present')`. -/
def svcStateOf (svc : YVal) : YVal :=
  match svc with
  | .map d => pyGetD d "state" (.str "present")
  | _ => .str "present"

theorem process_bind_dial_ok_state {svc_name ptype suffix : String} {polV st : YVal}
    {p : ServicePolicyOut} (h : process_bind_dial svc_name ptype suffix polV st = .ok p) :
    p.state = st := by
  unfold process_bind_dial at h
  simp only [except_bind_ok, pure, Except.pure] at h
  obtain ⟨pol, hpol, r1, hr1, r2, hr2, r3, hr3, r4, hr4, r5, hr5, hp⟩ := h
  cases hp
  rfl

theorem mk_service_router_policy_ok_state {svc_name : String} {drr st v : YVal}
    {p : SrvRouterPolicyOut} (h : mk_service_router_policy svc_name drr st v = .ok p) :
    p.state = st := by
  unfold mk_service_router_policy at h
  simp only [except_bind_ok, pure, Except.pure] at h
  obtain ⟨d, hd, hp⟩ := h
  cases hp
  rfl

theorem process_router_policy_ok_state {svc_name : String} {drr dcrp rv st : YVal}
    {o : Option SrvRouterPolicyOut}
    (h : process_router_policy svc_name drr dcrp rv st = .ok o) :
    ∀ rp, o = some rp → rp.state = st := by
  unfold process_router_policy at h
  split at h
  · cases h
    intro rp hrp
    cases hrp
  · split at h
    · rw [except_map_ok] at h
      obtain ⟨p, hp, ho⟩ := h
      intro rp hrp
      rw [← ho] at hrp
      cases hrp
      exact mk_service_router_policy_ok_state hp
    · cases h
      intro rp hrp
      cases hrp
  · rw [except_map_ok] at h
    obtain ⟨p, hp, ho⟩ := h
    intro rp hrp
    rw [← ho] at hrp
    cases hrp
    exact mk_service_router_policy_ok_state hp

theorem host_block_ok_state {svc_name : String} {st : YVal} {svcD d' : Dict}
    {cfgs : List ConfigOut} {names : List String}
    (h : host_block svc_name st svcD = .ok (d', cfgs, names)) :
    ∀ c ∈ cfgs, c.state = st := by
  simp only [host_block] at h
  split at h
  · simp only [except_bind_ok, pure, Except.pure] at h
    obtain ⟨hd, hhd, heq⟩ := h
    cases heq
    intro c hc
    simp only [List.mem_singleton] at hc
    rw [hc]
  · cases h
    intro c hc
    simp at hc

theorem intercept_block_ok_state {svc_name : String} {st : YVal} {svcD d' : Dict}
    {cfgs : List ConfigOut} {names : List String}
    (h : intercept_block svc_name st svcD = .ok (d', cfgs, names)) :
    ∀ c ∈ cfgs, c.state = st := by
  simp only [intercept_block] at h
  split at h
  · simp only [except_bind_ok, pure, Except.pure] at h
    obtain ⟨idt, hidt, heq⟩ := h
    cases heq
    intro c hc
    simp only [List.mem_singleton] at hc
    rw [hc]
  · cases h
    intro c hc
    simp at hc

theorem bind_dial_block_ok_state {svc_name ptype suffix key : String} {policiesD : Dict}
    {st : YVal} {out : List ServicePolicyOut}
    (h : bind_dial_block svc_name ptype suffix policiesD key st = .ok out) :
    ∀ p ∈ out, p.state = st := by
  simp only [bind_dial_block] at h
  split at h
  · simp only [except_bind_ok, pure, Except.pure] at h
    obtain ⟨p, hp, heq⟩ := h
    cases heq
    intro q hq
    simp only [List.mem_singleton] at hq
    rw [hq]
    exact process_bind_dial_ok_state hp
  · cases h
    intro q hq
    simp at hq

/-- C9: every record the services loop derives from a service entry — host
and intercept configs, bind and dial service policies, and the service
router policy — carries a `state` equal to the service's own state
(`svc.get('state', 'present')`), as does the service record itself. -/
theorem c9_derived_records_carry_service_state
    (tn : Option (List String)) (drr denc dcrp svc : YVal) (res : SvcResult)
    (h : processService tn drr denc dcrp svc = .ok res) :
    (∀ c ∈ res.configs, c.state = svcStateOf svc) ∧
    (∀ p ∈ res.policies, p.state = svcStateOf svc) ∧
    (∀ rp, res.routerPolicy = some rp → rp.state = svcStateOf svc) ∧
    (∀ s, res.service = some s → s.state = svcStateOf svc) := by
  unfold processService at h
  split at h
  · cases h
    refine ⟨by simp, by simp, by simp, by simp⟩
  · simp only [except_bind_ok, pure, Except.pure] at h
    obtain ⟨svcD, hsvcD, nameV, hname, h⟩ := h
    have hsvc : svc = .map svcD := asDict_ok hsvcD
    split at h
    · cases h
      refine ⟨by simp, by simp, by simp, by simp⟩
    · simp only [except_bind_ok, pure, Except.pure] at h
      obtain ⟨svc_name, hsn, ⟨svcD1, hostCfgs, hostNames⟩, hhost, h⟩ := h
      obtain ⟨⟨svcD2, intCfgs, intNames⟩, hint, h⟩ := h
      obtain ⟨raw_attrs, hraw, attrs, hattrs, policiesD, hpold, h⟩ := h
      obtain ⟨bindPols, hbind, dialPols, hdial, srp, hsrp, h⟩ := h
      cases h
      rw [hsvc]
      simp only [svcStateOf]
      refine ⟨?_, ?_, ?_, ?_⟩
      · intro c hc
        simp only [List.mem_append] at hc
        rcases hc with hc | hc
        · exact host_block_ok_state hhost c hc
        · exact intercept_block_ok_state hint c hc
      · intro p hp
        simp only [List.mem_append] at hp
        rcases hp with hp | hp
        · exact bind_dial_block_ok_state hbind p hp
        · exact bind_dial_block_ok_state hdial p hp
      · intro rp hrp
        exact process_router_policy_ok_state hsrp rp hrp
      · intro s hs
        cases hs
        rfl

theorem c9_witness :
    processService none (.list [.str "#all"]) (.bool true) (.bool false)
      (.map [("name", .str "web"), ("state", .str "absent"),
             ("host", .map [("protocol", .str "udp")]),
             ("policies", .map [("bind", .map [("identity", .str "bob")]),
                                ("router", .map [])])])
      = .ok ⟨.map [("name", .str "web"), ("state", .str "absent"),
                   ("host", .map [("protocol", .str "udp")]),
                   ("policies", .map [("bind", .map [("identity", .str "bob")]),
                                      ("router", .map [])])],
             [⟨"web-host-v1", "host.v1", [("protocol", .str "udp")], .str "absent"⟩],
             some ⟨"web", ["web"], ["web-host-v1"], .bool true, .str "absent"⟩,
             [⟨"web-bind", "Bind", ["#web"], ["#bob"], .str "AnyOf", .str "absent"⟩],
             some ⟨"web-router", ["#web"], .list [.str "#all"], .str "AnyOf", .str "absent"⟩⟩ ∧
    (∀ c ∈ [(⟨"web-host-v1", "host.v1", [("protocol", .str "udp")], .str "absent"⟩ : ConfigOut)],
      c.state = svcStateOf (.map [("name", .str "web"), ("state", .str "absent"),
             ("host", .map [("protocol", .str "udp")]),
             ("policies", .map [("bind", .map [("identity", .str "bob")]),
                                ("router", .map [])])])) := by
  constructor
  · rfl
  · have h := c9_derived_records_carry_service_state none (.list [.str "#all"]) (.bool true)
      (.bool false)
      (.map [("name", .str "web"), ("state", .str "absent"),
             ("host", .map [("protocol", .str "udp")]),
             ("policies", .map [("bind", .map [("identity", .str "bob")]),
                                ("router", .map [])])])
      ⟨.map [("name", .str "web"), ("state", .str "absent"),
                   ("host", .map [("protocol", .str "udp")]),
                   ("policies", .map [("bind", .map [("identity", .str "bob")]),
                                      ("router", .map [])])],
             [⟨"web-host-v1", "host.v1", [("protocol", .str "udp")], .str "absent"⟩],
             some ⟨"web", ["web"], ["web-host-v1"], .bool true, .str "absent"⟩,
             [⟨"web-bind", "Bind", ["#web"], ["#bob"], .str "AnyOf", .str "absent"⟩],
             some ⟨"web-router", ["#web"], .list [.str "#all"], .str "AnyOf", .str "absent"⟩⟩
      rfl
    exact h.1

/-! ## Claim C4 -/

/-- The `policies` sub-dict of a service entry, as the loop reads it
(line 206): `svc.get('policies') or {}`. -/
def policies_dict (svc : YVal) : Dict :=
  match svc with
  | .map d =>
    match pyOr (pyGet d "policies") (.map []) with
    | .map pd => pd
    | _ => []
  | _ => []

/-- `policies.get('router')` of a service entry (line 271). -/
def router_def (svc : YVal) : YVal := pyGet (policies_dict svc) "router"

/-- The three-way router policy decision (lines 272-280) as a predicate on
the `policies.get('router')` value: explicit `False` suppresses, any other
non-`None` value enables, `None` defers to
`defaults.create_router_policies`. -/
def router_tristate (rv dcrp : YVal) : Prop :=
  match rv with
  | .bool false => False
  | .null => truthy dcrp = true
  | _ => True

/-- The dict whose `roles` entry feeds `edge_router_roles` (line 283). -/
def router_roles_src (rv : YVal) : Dict :=
  match rv with
  | .map rd => rd
  | _ => []

theorem mk_service_router_policy_ok_inv {svc_name : String} {drr st v : YVal}
    {p : SrvRouterPolicyOut} (h : mk_service_router_policy svc_name drr st v = .ok p) :
    ∃ d, v = .map d ∧
      p = ⟨svc_name ++ "-router", ["#" ++ svc_name], pyOr (pyGet d "roles") drr,
           pyGetD d "semantic" (.str "AnyOf"), st⟩ := by
  unfold mk_service_router_policy at h
  simp only [except_bind_ok, pure, Except.pure] at h
  obtain ⟨d, hd, hp⟩ := h
  refine ⟨d, asDict_ok hd, ?_⟩
  cases hp
  rfl

theorem process_router_policy_ok_inv {svc_name : String} {drr dcrp rv st : YVal}
    {o : Option SrvRouterPolicyOut}
    (h : process_router_policy svc_name drr dcrp rv st = .ok o) :
    (o.isSome = true ↔ router_tristate rv dcrp) ∧
    (∀ p, o = some p →
      p.edge_router_roles = pyOr (pyGet (router_roles_src rv) "roles") drr) := by
  cases rv with
  | bool b =>
    cases b with
    | false =>
      simp only [process_router_policy] at h
      cases h
      exact ⟨by simp [router_tristate], fun p hp => by cases hp⟩
    | true =>
      simp only [process_router_policy, except_map_ok] at h
      obtain ⟨p, hp, ho⟩ := h
      obtain ⟨d, habs, -⟩ := mk_service_router_policy_ok_inv hp
      simp at habs
  | null =>
    simp only [process_router_policy] at h
    split at h
    · rename_i hc
      rw [except_map_ok] at h
      obtain ⟨p, hp, ho⟩ := h
      subst ho
      obtain ⟨d, hd, hpeq⟩ := mk_service_router_policy_ok_inv hp
      have hd' : ([] : Dict) = d := by injection hd
      subst hd'
      subst hpeq
      exact ⟨by simpa [router_tristate] using hc, fun q hq => by cases hq; rfl⟩
    · rename_i hc
      cases h
      exact ⟨by simp [router_tristate, hc], fun p hp => by cases hp⟩
  | str s =>
    simp only [process_router_policy, except_map_ok] at h
    obtain ⟨p, hp, ho⟩ := h
    obtain ⟨d, habs, -⟩ := mk_service_router_policy_ok_inv hp
    simp at habs
  | int n =>
    simp only [process_router_policy, except_map_ok] at h
    obtain ⟨p, hp, ho⟩ := h
    obtain ⟨d, habs, -⟩ := mk_service_router_policy_ok_inv hp
    simp at habs
  | list l =>
    simp only [process_router_policy, except_map_ok] at h
    obtain ⟨p, hp, ho⟩ := h
    obtain ⟨d, habs, -⟩ := mk_service_router_policy_ok_inv hp
    simp at habs
  | map m =>
    simp only [process_router_policy, except_map_ok] at h
    obtain ⟨p, hp, ho⟩ := h
    subst ho
    obtain ⟨d, hd, hpeq⟩ := mk_service_router_policy_ok_inv hp
    have hd' : m = d := by injection hd
    subst hd'
    subst hpeq
    exact ⟨by simp [router_tristate], fun q hq => by cases hq; rfl⟩

theorem host_block_ok_lookup_ne {svc_name : String} {st : YVal} {svcD d' : Dict}
    {cfgs : List ConfigOut} {names : List String}
    (h : host_block svc_name st svcD = .ok (d', cfgs, names)) (k : String)
    (hk : k ≠ "host") : dictLookup d' k = dictLookup svcD k := by
  simp only [host_block] at h
  split at h
  · simp only [except_bind_ok, pure, Except.pure] at h
    obtain ⟨hd, hhd, heq⟩ := h
    cases heq
    exact dictLookup_dictSet_ne _ _ _ _ hk
  · cases h
    rfl

theorem intercept_block_ok_lookup_ne {svc_name : String} {st : YVal} {svcD d' : Dict}
    {cfgs : List ConfigOut} {names : List String}
    (h : intercept_block svc_name st svcD = .ok (d', cfgs, names)) (k : String)
    (hk : k ≠ "intercept") : dictLookup d' k = dictLookup svcD k := by
  simp only [intercept_block] at h
  split at h
  · simp only [except_bind_ok, pure, Except.pure] at h
    obtain ⟨idt, hidt, heq⟩ := h
    cases heq
    exact dictLookup_dictSet_ne _ _ _ _ hk
  · cases h
    rfl

/-- C4: for a processed service entry, the service router policy is emitted
exactly when `policies.router` is an explicit non-false value (any map,
including the empty one), or is absent and `defaults.create_router_policies`
is truthy; explicit `false` always suppresses it.  When emitted, its
edge router roles are the sub-declaration's truthy `roles` value, else the
default router roles. -/
theorem c4_service_router_policy_tristate
    (tn : Option (List String)) (drr denc dcrp svc : YVal) (res : SvcResult)
    (h : processService tn drr denc dcrp svc = .ok res)
    (hproc : res.service.isSome = true) :
    (res.routerPolicy.isSome = true ↔ router_tristate (router_def svc) dcrp) ∧
    (∀ p, res.routerPolicy = some p →
      p.edge_router_roles = pyOr (pyGet (router_roles_src (router_def svc)) "roles") drr) := by
  unfold processService at h
  split at h
  · cases h
    simp at hproc
  · simp only [except_bind_ok, pure, Except.pure] at h
    obtain ⟨svcD, hsvcD, nameV, hname, h⟩ := h
    have hsvc : svc = .map svcD := asDict_ok hsvcD
    split at h
    · cases h
      simp at hproc
    · simp only [except_bind_ok, pure, Except.pure] at h
      obtain ⟨svc_name, hsn, ⟨svcD1, hostCfgs, hostNames⟩, hhost, h⟩ := h
      obtain ⟨⟨svcD2, intCfgs, intNames⟩, hint, h⟩ := h
      obtain ⟨raw_attrs, hraw, attrs, hattrs, policiesD, hpold, h⟩ := h
      obtain ⟨bindPols, hbind, dialPols, hdial, srp, hsrp, h⟩ := h
      cases h
      have hpol_eq : pyGet svcD2 "policies" = pyGet svcD "policies" := by
        unfold pyGet
        rw [intercept_block_ok_lookup_ne hint _ (by decide),
            host_block_ok_lookup_ne hhost _ (by decide)]
      have hpd : policies_dict svc = policiesD := by
        rw [hsvc]
        show (match pyOr (pyGet svcD "policies") (.map []) with
          | .map pd => pd | _ => ([] : Dict)) = policiesD
        rw [← hpol_eq, asDict_ok hpold]
      have hrd : router_def svc = pyGet policiesD "router" := by
        unfold router_def
        rw [hpd]
      rw [hrd]
      exact process_router_policy_ok_inv hsrp

theorem c4_witness :
    (some (⟨"a-router", ["#a"], .list [.str "#all"], .str "AnyOf", .str "present"⟩
        : SrvRouterPolicyOut) : Option SrvRouterPolicyOut).isSome = true ∧
    (⟨"a-router", ["#a"], .list [.str "#all"], .str "AnyOf", .str "present"⟩
        : SrvRouterPolicyOut).edge_router_roles
      = pyOr (pyGet (router_roles_src (router_def (.map [("name", .str "a"),
          ("policies", .map [("router", .map [])])]))) "roles") (.list [.str "#all"]) := by
  have h := c4_service_router_policy_tristate none (.list [.str "#all"]) (.bool true)
    (.bool false)
    (.map [("name", .str "a"), ("policies", .map [("router", .map [])])])
    ⟨.map [("name", .str "a"), ("policies", .map [("router", .map [])])],
     [], some ⟨"a", ["a"], [], .bool true, .str "present"⟩, [],
     some ⟨"a-router", ["#a"], .list [.str "#all"], .str "AnyOf", .str "present"⟩⟩
    rfl rfl
  exact ⟨h.1.mpr trivial, h.2 _ rfl⟩

/-! ## Claim C2 -/

/-- A role token beginning with `@` or `#` (line 214's check). -/
def rolePrefixed (s : String) : Bool :=
  str_startswith s "@" || str_startswith s "#"

/-- Prefix check on a dynamic value: only a prefixed string counts. -/
def rolePrefixedV (v : YVal) : Bool :=
  match v with
  | .str s => rolePrefixed s
  | _ => false

/-- The role references contained in a dynamic value that is a role list. -/
def rolesOfV (v : YVal) : List YVal :=
  match v with
  | .list l => l
  | _ => []

/-- The claim as stated: every role reference appearing in any role list of
the output (identity_roles, service_roles, edge_router_roles, for service
policies, service router policies and global router policies) is
`#`/`@`-prefixed. -/
def allRolesPrefixed (out : ZitiOutput) : Bool :=
  out.openziti_service_policies.all
      (fun p => p.service_roles.all rolePrefixed && p.identity_roles.all rolePrefixed) &&
  out.openziti_service_router_policies.all
      (fun p => p.service_roles.all rolePrefixed &&
        (rolesOfV p.edge_router_roles).all rolePrefixedV) &&
  out.openziti_router_policies.all
      (fun p => (rolesOfV p.edge_router_roles).all rolePrefixedV &&
        (rolesOfV p.identity_roles).all rolePrefixedV)

theorem rolePrefixed_hash_append (s : String) : rolePrefixed ("#" ++ s) = true := by
  have hdata : ("#" ++ s).data = '#' :: s.data := rfl
  simp [rolePrefixed, str_startswith, hdata, List.isPrefixOf]

theorem normalize_role_prefixed {r : YVal} {s : String} (h : normalize_role r = .ok s) :
    rolePrefixed s = true := by
  unfold normalize_role at h
  simp only [except_bind_ok, pure, Except.pure] at h
  obtain ⟨s0, hs0, hif⟩ := h
  split at hif
  · cases hif
    rename_i hc
    simpa [rolePrefixed] using hc
  · cases hif
    exact rolePrefixed_hash_append s0

theorem mapM_normalize_role_prefixed {l : List YVal} {out : List String}
    (h : l.mapM normalize_role = .ok out) : ∀ s ∈ out, rolePrefixed s = true := by
  induction l generalizing out with
  | nil =>
    simp only [List.mapM_nil, pure, Except.pure] at h
    cases h
    simp
  | cons a as ih =>
    simp only [List.mapM_cons, except_bind_ok, pure, Except.pure] at h
    obtain ⟨b, hb, bs, hbs, heq⟩ := h
    cases heq
    intro s hs
    simp only [List.mem_cons] at hs
    rcases hs with hs | hs
    · rw [hs]
      exact normalize_role_prefixed hb
    · exact ih hbs s hs

theorem append_identity_role_prefixed {pol : Dict} {ids out : List String}
    (h : append_identity_role pol ids = .ok out)
    (hids : ∀ s ∈ ids, rolePrefixed s = true) : ∀ s ∈ out, rolePrefixed s = true := by
  unfold append_identity_role at h
  split at h
  · simp only [except_bind_ok, pure, Except.pure] at h
    obtain ⟨s0, hs0, heq⟩ := h
    cases heq
    intro s hs
    simp only [List.mem_append, List.mem_singleton] at hs
    rcases hs with hs | hs
    · exact hids s hs
    · rw [hs]
      exact rolePrefixed_hash_append s0
  · simp only [pure, Except.pure] at h
    cases h
    exact hids

theorem process_bind_dial_prefixed {svc_name ptype suffix : String} {polV st : YVal}
    {p : ServicePolicyOut} (h : process_bind_dial svc_name ptype suffix polV st = .ok p) :
    (∀ r ∈ p.service_roles, rolePrefixed r = true) ∧
    (∀ r ∈ p.identity_roles, rolePrefixed r = true) := by
  unfold process_bind_dial at h
  simp only [except_bind_ok, pure, Except.pure] at h
  obtain ⟨pol, hpol, r1, hr1, r2, hr2, r3, hr3, r4, hr4, r5, hr5, hp⟩ := h
  cases hp
  constructor
  · intro r hr
    simp only [List.mem_cons] at hr
    rcases hr with hr | hr
    · rw [hr]
      exact rolePrefixed_hash_append svc_name
    · exact mapM_normalize_role_prefixed hr5 r hr
  · intro r hr
    exact append_identity_role_prefixed hr3 (mapM_normalize_role_prefixed hr2) r hr

theorem bind_dial_block_prefixed {svc_name ptype suffix key : String} {policiesD : Dict}
    {st : YVal} {out : List ServicePolicyOut}
    (h : bind_dial_block svc_name ptype suffix policiesD key st = .ok out) :
    ∀ p ∈ out, (∀ r ∈ p.service_roles, rolePrefixed r = true) ∧
      (∀ r ∈ p.identity_roles, rolePrefixed r = true) := by
  simp only [bind_dial_block] at h
  split at h
  · simp only [except_bind_ok, pure, Except.pure] at h
    obtain ⟨p, hp, heq⟩ := h
    cases heq
    intro q hq
    simp only [List.mem_singleton] at hq
    rw [hq]
    exact process_bind_dial_prefixed hp
  · cases h
    intro q hq
    simp at hq

theorem process_router_policy_ok_service_roles {svc_name : String} {drr dcrp rv st : YVal}
    {o : Option SrvRouterPolicyOut}
    (h : process_router_policy svc_name drr dcrp rv st = .ok o) :
    ∀ p, o = some p → p.service_roles = ["#" ++ svc_name] := by
  unfold process_router_policy at h
  split at h
  · cases h
    intro p hp
    cases hp
  · split at h
    · rw [except_map_ok] at h
      obtain ⟨p, hp, ho⟩ := h
      subst ho
      obtain ⟨d, hd, hpeq⟩ := mk_service_router_policy_ok_inv hp
      subst hpeq
      intro q hq
      cases hq
      rfl
    · cases h
      intro p hp
      cases hp
  · rw [except_map_ok] at h
    obtain ⟨p, hp, ho⟩ := h
    subst ho
    obtain ⟨d, hd, hpeq⟩ := mk_service_router_policy_ok_inv hp
    subst hpeq
    intro q hq
    cases hq
    rfl

theorem processService_prefixed {tn : Option (List String)} {drr denc dcrp svc : YVal}
    {res : SvcResult} (h : processService tn drr denc dcrp svc = .ok res) :
    (∀ p ∈ res.policies, (∀ r ∈ p.service_roles, rolePrefixed r = true) ∧
      (∀ r ∈ p.identity_roles, rolePrefixed r = true)) ∧
    (∀ p, res.routerPolicy = some p → ∀ r ∈ p.service_roles, rolePrefixed r = true) := by
  unfold processService at h
  split at h
  · cases h
    exact ⟨by simp, by simp⟩
  · simp only [except_bind_ok, pure, Except.pure] at h
    obtain ⟨svcD, hsvcD, nameV, hname, h⟩ := h
    split at h
    · cases h
      exact ⟨by simp, by simp⟩
    · simp only [except_bind_ok, pure, Except.pure] at h
      obtain ⟨svc_name, hsn, ⟨svcD1, hostCfgs, hostNames⟩, hhost, h⟩ := h
      obtain ⟨⟨svcD2, intCfgs, intNames⟩, hint, h⟩ := h
      obtain ⟨raw_attrs, hraw, attrs, hattrs, policiesD, hpold, h⟩ := h
      obtain ⟨bindPols, hbind, dialPols, hdial, srp, hsrp, h⟩ := h
      cases h
      constructor
      · intro p hp
        simp only [List.mem_append] at hp
        rcases hp with hp | hp
        · exact bind_dial_block_prefixed hbind p hp
        · exact bind_dial_block_prefixed hdial p hp
      · intro p hp r hr
        rw [process_router_policy_ok_service_roles hsrp p hp] at hr
        simp only [List.mem_singleton] at hr
        rw [hr]
        exact rolePrefixed_hash_append svc_name

theorem processServices_prefixed {tn : Option (List String)} {drr denc dcrp : YVal}
    {l : List YVal} {acc : SvcAcc} (h : processServices tn drr denc dcrp l = .ok acc) :
    (∀ p ∈ acc.policies, (∀ r ∈ p.service_roles, rolePrefixed r = true) ∧
      (∀ r ∈ p.identity_roles, rolePrefixed r = true)) ∧
    (∀ p ∈ acc.routerPolicies, ∀ r ∈ p.service_roles, rolePrefixed r = true) := by
  induction l generalizing acc with
  | nil =>
    simp only [processServices] at h
    cases h
    exact ⟨by simp, by simp⟩
  | cons e rest ih =>
    simp only [processServices, except_bind_ok, pure, Except.pure] at h
    obtain ⟨r, hr, acc', hacc', heq⟩ := h
    cases heq
    obtain ⟨h1, h2⟩ := processService_prefixed hr
    obtain ⟨ih1, ih2⟩ := ih hacc'
    constructor
    · intro p hp
      simp only [List.mem_append] at hp
      rcases hp with hp | hp
      · exact h1 p hp
      · exact ih1 p hp
    · intro p hp
      simp only [List.mem_append] at hp
      rcases hp with hp | hp
      · rcases hrp : r.routerPolicy with _ | q
        · rw [hrp] at hp
          simp at hp
        · rw [hrp] at hp
          simp only [Option.toList_some, List.mem_singleton] at hp
          rw [hp]
          exact h2 q hrp
      · exact ih2 p hp

/-- Inversion of a successful `ziti_transform` run on a truthy model into the
results of its sequential phases. -/
theorem ziti_transform_ok_parts {m : YVal} {t : Option (List String)} {m' : YVal}
    {out : ZitiOutput} (h : ziti_transform m t = .ok (m', out)) (hm : truthy m = true) :
    ∃ (dd defaults : Dict) (identsL svcsL rpsL : List YVal) (idOuts : List IdentityOut)
      (acc : SvcAcc) (rpOuts : List RouterPolicyOut),
      m = .map dd ∧
      asDict (pyOr (pyGet dd "defaults") (.map [])) = .ok defaults ∧
      asList (pyOr (pyGet dd "identities") (.list [])) = .ok identsL ∧
      processIdentities t identsL = .ok idOuts ∧
      asList (pyOr (pyGet dd "services") (.list [])) = .ok svcsL ∧
      processServices t (pyOr (pyGet defaults "router_roles") (.list [.str "#all"]))
        (pyGetD defaults "encryption" (.bool true))
        (pyGetD defaults "create_router_policies" (.bool false)) svcsL = .ok acc ∧
      asList (pyOr (pyGet dd "router_policies") (.list [])) = .ok rpsL ∧
      processRouterPolicies rpsL = .ok rpOuts ∧
      out = ⟨idOuts, acc.configs, acc.services, acc.policies, rpOuts, acc.routerPolicies⟩ ∧
      m' = .map (if truthy (pyGet dd "services")
        then dictSet dd "services" (.list acc.newSvcs) else dd) := by
  unfold ziti_transform at h
  rw [if_neg (by simp [hm])] at h
  simp only [except_bind_ok, pure, Except.pure] at h
  obtain ⟨dd, hdd, defaults, hdef, identsL, hil, idOuts, hio, svcsL, hsl, acc, hacc,
    rpsL, hrl, rpOuts, hro, heq⟩ := h
  refine ⟨dd, defaults, identsL, svcsL, rpsL, idOuts, acc, rpOuts,
    asDict_ok hdd, hdef, hil, hio, hsl, hacc, hrl, hro, ?_, ?_⟩
  · injection heq with h1
    injection h1 with h1 h2
    exact h2.symm
  · injection heq with h1
    injection h1 with h1 h2
    exact h1.symm

/-- C2 holds only for the normalized role lists: the identity and service
role lists of bind/dial service policies and the `service_roles` of service
router policies are always `#`/`@`-prefixed. -/
theorem c2_amended_normalized_roles_prefixed (m : YVal) (t : Option (List String))
    (m' : YVal) (out : ZitiOutput) (h : ziti_transform m t = .ok (m', out)) :
    (∀ p ∈ out.openziti_service_policies,
      (∀ r ∈ p.service_roles, rolePrefixed r = true) ∧
      (∀ r ∈ p.identity_roles, rolePrefixed r = true)) ∧
    (∀ p ∈ out.openziti_service_router_policies,
      ∀ r ∈ p.service_roles, rolePrefixed r = true) := by
  by_cases hm : truthy m = true
  · obtain ⟨dd, defaults, identsL, svcsL, rpsL, idOuts, acc, rpOuts,
      -, -, -, -, -, hacc, -, -, hout, -⟩ := ziti_transform_ok_parts h hm
    subst hout
    exact processServices_prefixed hacc
  · have hm' : truthy m = false := by
      cases hmm : truthy m
      · rfl
      · exact absurd hmm hm
    rw [c10_empty_model_compiles_to_empty_lists m t hm'] at h
    injection h with h1
    injection h1 with h1 h2
    rw [← h2]
    exact ⟨by simp [emptyOutput], by simp [emptyOutput]⟩

/-- C2 as stated is false: a global router policy's `edge_router_roles` (and
`identity_roles`) are emitted verbatim, so an unprefixed declared token
reaches the output. -/
theorem c2_counterexample :
    ziti_transform (.map [("router_policies", .list [.map [("name", .str "p"),
        ("edge_router_roles", .list [.str "r"])]])]) none
      = .ok (.map [("router_policies", .list [.map [("name", .str "p"),
            ("edge_router_roles", .list [.str "r"])]])],
          ⟨[], [], [], [],
           [⟨.str "p", .list [.str "r"], .list [.str "#all"], .str "AnyOf", .str "present"⟩],
           []⟩) ∧
    allRolesPrefixed
        ⟨[], [], [], [],
         [⟨.str "p", .list [.str "r"], .list [.str "#all"], .str "AnyOf", .str "present"⟩],
         []⟩ = false := ⟨rfl, rfl⟩

theorem c2_witness : rolePrefixed "#w" = true ∧ rolePrefixed "#bob" = true := by
  have h := c2_amended_normalized_roles_prefixed
    (.map [("services", .list [.map [("name", .str "w"),
      ("policies", .map [("bind", .map [("identity", .str "bob")])])]])]) none
    (.map [("services", .list [.map [("name", .str "w"),
      ("policies", .map [("bind", .map [("identity", .str "bob")])])]])])
    ⟨[], [], [⟨"w", ["w"], [], .bool true, .str "present"⟩],
     [⟨"w-bind", "Bind", ["#w"], ["#bob"], .str "AnyOf", .str "present"⟩], [], []⟩
    rfl
  exact ⟨(h.1 ⟨"w-bind", "Bind", ["#w"], ["#bob"], .str "AnyOf", .str "present"⟩
      (by simp)).1 "#w" (by simp),
    (h.1 ⟨"w-bind", "Bind", ["#w"], ["#bob"], .str "AnyOf", .str "present"⟩
      (by simp)).2 "#bob" (by simp)⟩

/-! ## Claim C6 -/

/-- A truthy (non-empty) map entry with no `name` key: the shape on which
`ident['name']` / `svc['name']` raises KeyError. -/
def namelessNonEmptyMap (e : YVal) : Bool :=
  match e with
  | .map d => !d.isEmpty && !(hasKey d "name")
  | _ => false

/-- The entry list a loop iterates for a given model key:
`deployment_data.get(key) or []`. -/
def entriesOf (dd : Dict) (key : String) : List YVal :=
  match pyOr (pyGet dd key) (.list []) with
  | .list l => l
  | _ => []

/-- The parts of the services-loop accumulator that feed the output lists
(everything except the mutated entries). -/
def stripAcc (acc : SvcAcc) :
    List ConfigOut × List ServiceOut × List ServicePolicyOut × List SrvRouterPolicyOut :=
  (acc.configs, acc.services, acc.policies, acc.routerPolicies)

theorem except_map_map {α β γ : Type} (x : Except String α) (f : α → β) (g : β → γ) :
    (x.map f).map g = x.map (g ∘ f) := by
  cases x <;> rfl

theorem processIdentity_skip {tn : Option (List String)} {e : YVal}
    (hf : truthy e = false) : processIdentity tn e = .ok none := by
  simp [processIdentity, hf]

theorem processService_skip {tn : Option (List String)} {a b c : YVal} {e : YVal}
    (hf : truthy e = false) :
    processService tn a b c e = .ok ⟨e, [], none, [], none⟩ := by
  simp [processService, hf]

theorem processIdentity_no_name {tn : Option (List String)} {d : Dict} (hne : d ≠ [])
    (hnm : dictLookup d "name" = none) :
    processIdentity tn (.map d) = .error "KeyError" := by
  have ht : truthy (.map d) = true := by
    cases d with
    | nil => exact absurd rfl hne
    | cons x xs => rfl
  unfold processIdentity
  rw [ht]
  simp [Bind.bind, Except.bind, asDict, keyGet, hnm]

theorem processService_no_name {tn : Option (List String)} {a b c : YVal} {d : Dict}
    (hne : d ≠ []) (hnm : dictLookup d "name" = none) :
    processService tn a b c (.map d) = .error "KeyError" := by
  have ht : truthy (.map d) = true := by
    cases d with
    | nil => exact absurd rfl hne
    | cons x xs => rfl
  unfold processService
  rw [ht]
  simp [Bind.bind, Except.bind, asDict, keyGet, hnm]

theorem namelessNonEmptyMap_inv {e : YVal} (h : namelessNonEmptyMap e = true) :
    ∃ d, e = .map d ∧ d ≠ [] ∧ dictLookup d "name" = none := by
  cases e <;> simp [namelessNonEmptyMap] at h
  rename_i d
  refine ⟨d, rfl, ?_, ?_⟩
  · intro hd
    rw [hd] at h
    simp at h
  · have := h.2
    unfold hasKey at this
    cases hl : dictLookup d "name"
    · rfl
    · rw [hl] at this
      simp at this

theorem processIdentities_error_of_bad (tn : Option (List String)) {l : List YVal}
    (h : ∃ e ∈ l, namelessNonEmptyMap e = true) :
    ∃ err, processIdentities tn l = .error err := by
  induction l with
  | nil =>
    obtain ⟨e, he, -⟩ := h
    simp at he
  | cons hd tl ih =>
    obtain ⟨e, he, hbad⟩ := h
    simp only [List.mem_cons] at he
    by_cases hhd : namelessNonEmptyMap hd = true
    · obtain ⟨d, hdeq, hne, hnm⟩ := namelessNonEmptyMap_inv hhd
      subst hdeq
      exact ⟨"KeyError", by
        simp [processIdentities, processIdentity_no_name hne hnm, Bind.bind, Except.bind]⟩
    · have htl : ∃ e ∈ tl, namelessNonEmptyMap e = true := by
        rcases he with he | he
        · rw [he] at hbad
          exact absurd hbad hhd
        · exact ⟨e, he, hbad⟩
      cases h1 : processIdentity tn hd with
      | error err =>
        exact ⟨err, by simp [processIdentities, h1, Bind.bind, Except.bind]⟩
      | ok o =>
        obtain ⟨err, herr⟩ := ih htl
        exact ⟨err, by simp [processIdentities, h1, herr, Bind.bind, Except.bind]⟩

theorem processServices_error_of_bad (tn : Option (List String)) (a b c : YVal)
    {l : List YVal} (h : ∃ e ∈ l, namelessNonEmptyMap e = true) :
    ∃ err, processServices tn a b c l = .error err := by
  induction l with
  | nil =>
    obtain ⟨e, he, -⟩ := h
    simp at he
  | cons hd tl ih =>
    obtain ⟨e, he, hbad⟩ := h
    simp only [List.mem_cons] at he
    by_cases hhd : namelessNonEmptyMap hd = true
    · obtain ⟨d, hdeq, hne, hnm⟩ := namelessNonEmptyMap_inv hhd
      subst hdeq
      exact ⟨"KeyError", by
        simp [processServices, processService_no_name hne hnm, Bind.bind, Except.bind]⟩
    · have htl : ∃ e ∈ tl, namelessNonEmptyMap e = true := by
        rcases he with he | he
        · rw [he] at hbad
          exact absurd hbad hhd
        · exact ⟨e, he, hbad⟩
      cases h1 : processService tn a b c hd with
      | error err =>
        exact ⟨err, by simp [processServices, h1, Bind.bind, Except.bind]⟩
      | ok o =>
        obtain ⟨err, herr⟩ := ih htl
        exact ⟨err, by simp [processServices, h1, herr, Bind.bind, Except.bind]⟩

theorem processIdentities_skip (tn : Option (List String)) (e : YVal)
    (hf : truthy e = false) :
    ∀ l₁ l₂ : List YVal,
      processIdentities tn (l₁ ++ e :: l₂) = processIdentities tn (l₁ ++ l₂) := by
  intro l₁
  induction l₁ with
  | nil =>
    intro l₂
    simp only [List.nil_append]
    cases h2 : processIdentities tn l₂ <;>
      simp [processIdentities, processIdentity_skip hf, Bind.bind, Except.bind, pure,
        Except.pure, h2]
  | cons hd tl ih =>
    intro l₂
    simp only [List.cons_append]
    simp only [processIdentities]
    rw [ih l₂]

theorem processServices_skip (tn : Option (List String)) (a b c : YVal) (e : YVal)
    (hf : truthy e = false) :
    ∀ l₁ l₂ : List YVal,
      (processServices tn a b c (l₁ ++ e :: l₂)).map stripAcc
        = (processServices tn a b c (l₁ ++ l₂)).map stripAcc := by
  intro l₁
  induction l₁ with
  | nil =>
    intro l₂
    simp only [List.nil_append]
    cases h2 : processServices tn a b c l₂ with
    | error err =>
      simp [processServices, processService_skip hf, h2, Bind.bind, Except.bind, Except.map]
    | ok acc =>
      simp [processServices, processService_skip hf, h2, Bind.bind, Except.bind, Except.map,
        stripAcc, pure, Except.pure]
  | cons hd tl ih =>
    intro l₂
    simp only [List.cons_append]
    cases h1 : processService tn a b c hd with
    | error err =>
      simp [processServices, h1, Bind.bind, Except.bind, Except.map]
    | ok r =>
      cases h2 : processServices tn a b c (tl ++ e :: l₂) with
      | error err =>
        have h3 : processServices tn a b c (tl ++ l₂) = .error err := by
          have := ih l₂
          rw [h2] at this
          cases h4 : processServices tn a b c (tl ++ l₂) with
          | error err2 =>
            rw [h4] at this
            simp [Except.map] at this
            rw [this]
          | ok acc2 =>
            rw [h4] at this
            simp [Except.map] at this
        simp [processServices, h1, h2, h3, Bind.bind, Except.bind, Except.map]
      | ok acc =>
        have h3 : ∃ acc2, processServices tn a b c (tl ++ l₂) = .ok acc2 ∧
            stripAcc acc2 = stripAcc acc := by
          have := ih l₂
          rw [h2] at this
          cases h4 : processServices tn a b c (tl ++ l₂) with
          | error err2 =>
            rw [h4] at this
            simp [Except.map] at this
          | ok acc2 =>
            rw [h4] at this
            simp [Except.map] at this
            exact ⟨acc2, rfl, this.symm⟩
        obtain ⟨acc2, h4, h5⟩ := h3
        have h6 := h5
        simp only [stripAcc, Prod.mk.injEq] at h6
        simp [processServices, h1, h2, h4, Bind.bind, Except.bind, Except.map, stripAcc,
          pure, Except.pure, h6.1, h6.2.1, h6.2.2.1, h6.2.2.2]

theorem entriesOf_bad_list {dd : Dict} {key : String}
    (h : ∃ e ∈ entriesOf dd key, namelessNonEmptyMap e = true) :
    ∃ l, pyOr (pyGet dd key) (.list []) = .list l ∧
      ∃ e ∈ l, namelessNonEmptyMap e = true := by
  obtain ⟨e, he, hbad⟩ := h
  unfold entriesOf at he
  cases hEE : pyOr (pyGet dd key) (.list []) with
  | list l =>
    rw [hEE] at he
    exact ⟨l, rfl, e, he, hbad⟩
  | str s => rw [hEE] at he; simp at he
  | int n => rw [hEE] at he; simp at he
  | bool b => rw [hEE] at he; simp at he
  | null => rw [hEE] at he; simp at he
  | map m => rw [hEE] at he; simp at he

theorem ziti_transform_error_of_bad_entry (dd : Dict) (t : Option (List String))
    (h : (∃ e ∈ entriesOf dd "identities", namelessNonEmptyMap e = true)
       ∨ (∃ e ∈ entriesOf dd "services", namelessNonEmptyMap e = true)) :
    ∃ err, ziti_transform (.map dd) t = .error err := by
  have ht : truthy (YVal.map dd) = true := by
    cases dd with
    | nil =>
      exfalso
      rcases h with h | h <;>
        · obtain ⟨e, he, -⟩ := h
          simp [entriesOf, pyGet, pyOr, dictLookup, truthy] at he
    | cons x xs => rfl
  cases hz : ziti_transform (.map dd) t with
  | error err => exact ⟨err, rfl⟩
  | ok r =>
    exfalso
    obtain ⟨m', out⟩ := r
    obtain ⟨dd', defaults, identsL, svcsL, rpsL, idOuts, acc, rpOuts, hddeq, hdef, hil,
      hio, hsl, hacc, -, -, -, -⟩ := ziti_transform_ok_parts hz ht
    have hdd' : dd = dd' := by injection hddeq
    subst hdd'
    rcases h with h | h
    · have hent : entriesOf dd "identities" = identsL := by
        unfold entriesOf
        rw [asList_ok hil]
      rw [hent] at h
      obtain ⟨err, herr⟩ := processIdentities_error_of_bad t h
      rw [hio] at herr
      simp at herr
    · have hent : entriesOf dd "services" = svcsL := by
        unfold entriesOf
        rw [asList_ok hsl]
      rw [hent] at h
      obtain ⟨err, herr⟩ := processServices_error_of_bad t
        (pyOr (pyGet defaults "router_roles") (.list [.str "#all"]))
        (pyGetD defaults "encryption" (.bool true))
        (pyGetD defaults "create_router_policies" (.bool false)) h
      rw [hacc] at herr
      simp at herr

/-- C6 as stated is false: an identity entry that is an *empty* map is a
non-null map lacking `name`, yet the compile succeeds — Python's truthiness
test (`if not ident: continue`) skips empty maps exactly like `None`. -/
theorem c6_counterexample :
    ziti_transform (.map [("identities", .list [.map []])]) none
      = .ok (.map [("identities", .list [.map []])], emptyOutput) := rfl

/-- C6 amended: a *non-empty* map entry lacking `name` in the identities or
services sequence makes the whole compile fail with a propagated error (no
partial output), while falsy entries — `None` and the empty map alike — are
silently skipped, leaving the loop results for the remaining entries
unchanged. -/
theorem c6_amended_nameless_fails_null_or_empty_skipped :
    (∀ (dd : Dict) (t : Option (List String)),
      ((∃ e ∈ entriesOf dd "identities", namelessNonEmptyMap e = true)
        ∨ (∃ e ∈ entriesOf dd "services", namelessNonEmptyMap e = true)) →
      ∃ err, ziti_transform (.map dd) t = .error err) ∧
    (∀ (tn : Option (List String)) (e : YVal), truthy e = false →
      ∀ l₁ l₂ : List YVal,
        processIdentities tn (l₁ ++ e :: l₂) = processIdentities tn (l₁ ++ l₂)) ∧
    (∀ (tn : Option (List String)) (a b c e : YVal), truthy e = false →
      ∀ l₁ l₂ : List YVal,
        (processServices tn a b c (l₁ ++ e :: l₂)).map stripAcc
          = (processServices tn a b c (l₁ ++ l₂)).map stripAcc) :=
  ⟨ziti_transform_error_of_bad_entry,
   fun tn e hf l₁ l₂ => processIdentities_skip tn e hf l₁ l₂,
   fun tn a b c e hf l₁ l₂ => processServices_skip tn a b c e hf l₁ l₂⟩

theorem c6_witness :
    (∃ err, ziti_transform (.map [("identities", .list [.map [("foo", .int 1)]])]) none
      = .error err) ∧
    processIdentities none ([] ++ .null :: []) = processIdentities none ([] ++ []) ∧
    (processServices none (.list [.str "#all"]) (.bool true) (.bool false)
        ([] ++ .map [] :: [])).map stripAcc
      = (processServices none (.list [.str "#all"]) (.bool true) (.bool false)
        ([] ++ [])).map stripAcc := by
  have h := c6_amended_nameless_fails_null_or_empty_skipped
  exact ⟨h.1 [("identities", .list [.map [("foo", .int 1)]])] none
      (Or.inl ⟨.map [("foo", .int 1)], by decide, by decide⟩),
    h.2.1 none .null rfl [] [],
    h.2.2 none (.list [.str "#all"]) (.bool true) (.bool false) (.map []) rfl [] []⟩

/-! ## Claim C1 -/

theorem keyGet_ok {d : Dict} {k : String} {v : YVal} (h : keyGet d k = .ok v) :
    dictLookup d k = some v := by
  unfold keyGet at h
  split at h
  · cases h
    assumption
  · cases h

/-- Following the spec's wording on scoping: the top-level name of a
declared (truthy) entry, read the way the loops read it. -/
def entryNameVal (e : YVal) : Option YVal :=
  if truthy e then
    match e with
    | .map d => dictLookup d "name"
    | _ => none
  else none

/-- Following the spec's wording: an entry is selected by a bounded target
set exactly when its name is a member; the selected name. -/
def spec_select1 (ts : List String) (e : YVal) : Option String :=
  match entryNameVal e with
  | some (.str s) => if ts.contains s then some s else none
  | _ => none

/-- Following the spec's wording: the declared entries whose name lies in
the bounded target set, in declaration order. -/
def spec_selected_names (ts : List String) (l : List YVal) : List String :=
  l.filterMap (spec_select1 ts)

/-- The entry lists of a model value (empty for a non-map model). -/
def modelEntries (m : YVal) (key : String) : List YVal :=
  match m with
  | .map dd => entriesOf dd key
  | _ => []

theorem isEmpty_false_of_ne_nil {ts : List String} (hne : ts ≠ []) :
    ¬(ts.isEmpty = true) := by
  simp only [List.isEmpty_eq_true]
  exact hne

theorem processService_selected_name {ts : List String} (hne : ts ≠ [])
    {drr denc dcrp svc : YVal} {res : SvcResult}
    (h : processService (some ts) drr denc dcrp svc = .ok res) :
    res.service.map ServiceOut.name = spec_select1 ts svc := by
  unfold processService at h
  split at h
  · rename_i hf
    cases h
    simp [spec_select1, entryNameVal, hf]
  · rename_i hf
    have htruthy : truthy svc = true := by
      cases hh : truthy svc
      · exact absurd hh hf
      · rfl
    simp only [except_bind_ok, pure, Except.pure] at h
    obtain ⟨svcD, hsvcD, nameV, hname, h⟩ := h
    have hsvc : svc = .map svcD := asDict_ok hsvcD
    have hlook : dictLookup svcD "name" = some nameV := keyGet_ok hname
    have hent : entryNameVal svc = some nameV := by
      rw [hsvc] at htruthy
      rw [hsvc]
      simp [entryNameVal, htruthy, hlook]
    split at h
    · rename_i hsp
      cases h
      simp only [should_process] at hsp
      rw [if_neg (isEmpty_false_of_ne_nil hne)] at hsp
      unfold spec_select1
      rw [hent]
      cases nameV with
      | str s =>
        simp [nameMem] at hsp
        simp [hsp]
      | int n => rfl
      | bool b => rfl
      | null => rfl
      | list l => rfl
      | map m => rfl
    · rename_i hsp
      have hsp' : should_process (some ts) nameV = true := by
        cases hh : should_process (some ts) nameV
        · exact absurd hh hsp
        · rfl
      simp only [except_bind_ok, pure, Except.pure] at h
      obtain ⟨svc_name, hsn, ⟨svcD1, hostCfgs, hostNames⟩, hhost, h⟩ := h
      obtain ⟨⟨svcD2, intCfgs, intNames⟩, hint, h⟩ := h
      obtain ⟨raw_attrs, hraw, attrs, hattrs, policiesD, hpold, h⟩ := h
      obtain ⟨bindPols, hbind, dialPols, hdial, srp, hsrp, h⟩ := h
      cases h
      have hnv : nameV = .str svc_name := asStr_ok hsn
      rw [hnv] at hent hsp'
      simp only [should_process] at hsp'
      rw [if_neg (isEmpty_false_of_ne_nil hne)] at hsp'
      simp [nameMem] at hsp'
      simp [spec_select1, hent, hsp']

theorem processIdentity_selected_name {ts : List String} (hne : ts ≠ [])
    {ident : YVal} {o : Option IdentityOut}
    (h : processIdentity (some ts) ident = .ok o) :
    o.map IdentityOut.name = (spec_select1 ts ident).map YVal.str := by
  unfold processIdentity at h
  split at h
  · rename_i hf
    cases h
    simp [spec_select1, entryNameVal, hf]
  · rename_i hf
    have htruthy : truthy ident = true := by
      cases hh : truthy ident
      · exact absurd hh hf
      · rfl
    simp only [except_bind_ok, pure, Except.pure] at h
    obtain ⟨identD, hidD, nameV, hname, h⟩ := h
    have hid : ident = .map identD := asDict_ok hidD
    have hlook : dictLookup identD "name" = some nameV := keyGet_ok hname
    have hent : entryNameVal ident = some nameV := by
      rw [hid] at htruthy
      rw [hid]
      simp [entryNameVal, htruthy, hlook]
    split at h
    · rename_i hsp
      cases h
      simp only [should_process] at hsp
      rw [if_neg (isEmpty_false_of_ne_nil hne)] at hsp
      unfold spec_select1
      rw [hent]
      cases nameV with
      | str s =>
        simp [nameMem] at hsp
        simp [hsp]
      | int n => rfl
      | bool b => rfl
      | null => rfl
      | list l => rfl
      | map m => rfl
    · rename_i hsp
      have hsp' : should_process (some ts) nameV = true := by
        cases hh : should_process (some ts) nameV
        · exact absurd hh hsp
        · rfl
      simp only [except_bind_ok, pure, Except.pure] at h
      obtain ⟨raw, hraw, attrs, hattrs, ra2, hra2, heq⟩ := h
      cases heq
      simp only [should_process] at hsp'
      rw [if_neg (isEmpty_false_of_ne_nil hne)] at hsp'
      cases nameV with
      | str s =>
        simp [nameMem] at hsp'
        simp [spec_select1, hent, hsp']
      | int n => simp [nameMem] at hsp'
      | bool b => simp [nameMem] at hsp'
      | null => simp [nameMem] at hsp'
      | list l => simp [nameMem] at hsp'
      | map mm => simp [nameMem] at hsp'

theorem option_toList_map {α β : Type} (o : Option α) (f : α → β) :
    (o.map f).toList = o.toList.map f := by
  cases o <;> rfl

theorem processServices_selected_names {ts : List String} (hne : ts ≠ [])
    {a b c : YVal} {l : List YVal} {acc : SvcAcc}
    (h : processServices (some ts) a b c l = .ok acc) :
    acc.services.map ServiceOut.name = spec_selected_names ts l := by
  induction l generalizing acc with
  | nil =>
    simp only [processServices] at h
    cases h
    simp [spec_selected_names]
  | cons e rest ih =>
    simp only [processServices, except_bind_ok, pure, Except.pure] at h
    obtain ⟨r, hr, acc', hacc', heq⟩ := h
    cases heq
    have h1 := processService_selected_name hne hr
    have h2 := ih hacc'
    simp only [List.map_append]
    rw [← option_toList_map, h1, h2]
    unfold spec_selected_names
    rw [List.filterMap_cons]
    cases hsel : spec_select1 ts e <;> simp [hsel]

theorem processIdentities_selected_names {ts : List String} (hne : ts ≠ [])
    {l : List YVal} {outs : List IdentityOut}
    (h : processIdentities (some ts) l = .ok outs) :
    outs.map IdentityOut.name = (spec_selected_names ts l).map YVal.str := by
  induction l generalizing outs with
  | nil =>
    simp only [processIdentities] at h
    cases h
    simp [spec_selected_names]
  | cons e rest ih =>
    simp only [processIdentities, except_bind_ok, pure, Except.pure] at h
    obtain ⟨o, ho, outs', houts', heq⟩ := h
    cases heq
    have h1 := processIdentity_selected_name hne ho
    have h2 := ih houts'
    simp only [List.map_append]
    rw [← option_toList_map, h1, h2]
    unfold spec_selected_names
    rw [List.filterMap_cons]
    cases hsel : spec_select1 ts e <;> simp [hsel, option_toList_map]

theorem should_process_some_nil : should_process (some []) = should_process none := by
  funext n
  simp [should_process]

theorem processIdentity_some_nil (e : YVal) :
    processIdentity (some []) e = processIdentity none e := by
  unfold processIdentity
  rw [should_process_some_nil]

theorem processIdentities_some_nil (l : List YVal) :
    processIdentities (some []) l = processIdentities none l := by
  induction l with
  | nil => rfl
  | cons e rest ih =>
    simp only [processIdentities, processIdentity_some_nil, ih]

theorem processService_some_nil (a b c : YVal) (e : YVal) :
    processService (some []) a b c e = processService none a b c e := by
  unfold processService
  rw [should_process_some_nil]

theorem processServices_some_nil (a b c : YVal) (l : List YVal) :
    processServices (some []) a b c l = processServices none a b c l := by
  induction l with
  | nil => rfl
  | cons e rest ih =>
    simp only [processServices, processService_some_nil, ih]

/-- An empty target list is falsy under `if not target_names`, so the whole
transform behaves exactly as with `None` (unbounded). -/
theorem ziti_transform_some_nil (m : YVal) :
    ziti_transform m (some []) = ziti_transform m none := by
  unfold ziti_transform
  rw [show processIdentities (some []) = processIdentities none from
    funext processIdentities_some_nil]
  rw [show processServices (some []) = processServices none from
    funext fun a => funext fun b => funext fun c =>
      funext fun l => processServices_some_nil a b c l]

theorem modelEntries_falsy {m : YVal} (h : truthy m = false) (key : String) :
    modelEntries m key = [] := by
  cases m with
  | map dd =>
    have hdd : dd = [] := by
      simpa [truthy] using h
    subst hdd
    rfl
  | str s => rfl
  | int n => rfl
  | bool b => rfl
  | null => rfl
  | list l => rfl

/-- C1 amended: for a bounded *non-empty* target set, the output services
and identities are exactly the declared entries whose name is in the set (in
declaration order), and global router policies are emitted exactly as in an
unbounded run; a bounded *empty* set, however, behaves as unbounded
(processing everything), not as selecting nothing. -/
theorem c1_amended_scoping (m : YVal) (ts : List String) (m' : YVal) (out : ZitiOutput)
    (hne : ts ≠ []) (h : ziti_transform m (some ts) = .ok (m', out)) :
    out.openziti_services.map ServiceOut.name
        = spec_selected_names ts (modelEntries m "services") ∧
    out.openziti_identities.map IdentityOut.name
        = (spec_selected_names ts (modelEntries m "identities")).map YVal.str ∧
    (∀ m₂ out₂, ziti_transform m none = .ok (m₂, out₂) →
      out.openziti_router_policies = out₂.openziti_router_policies) ∧
    ziti_transform m (some []) = ziti_transform m none := by
  by_cases hm : truthy m = true
  · obtain ⟨dd, defaults, identsL, svcsL, rpsL, idOuts, acc, rpOuts, hmdd, hdef, hil,
      hio, hsl, hacc, hrl, hro, hout, hmut⟩ := ziti_transform_ok_parts h hm
    subst hout
    refine ⟨?_, ?_, ?_, ziti_transform_some_nil m⟩
    · have hsvcs : modelEntries m "services" = svcsL := by
        rw [hmdd]
        show entriesOf dd "services" = svcsL
        unfold entriesOf
        rw [asList_ok hsl]
      rw [hsvcs]
      exact processServices_selected_names hne hacc
    · have hids : modelEntries m "identities" = identsL := by
        rw [hmdd]
        show entriesOf dd "identities" = identsL
        unfold entriesOf
        rw [asList_ok hil]
      rw [hids]
      exact processIdentities_selected_names hne hio
    · intro m₂ out₂ h₂
      obtain ⟨dd₂, defaults₂, identsL₂, svcsL₂, rpsL₂, idOuts₂, acc₂, rpOuts₂, hmdd₂,
        -, -, -, -, -, hrl₂, hro₂, hout₂, -⟩ := ziti_transform_ok_parts h₂ hm
      subst hout₂
      have hdd : dd = dd₂ := by
        rw [hmdd] at hmdd₂
        injection hmdd₂
      subst hdd
      have h1 : rpsL = rpsL₂ := by
        rw [hrl] at hrl₂
        injection hrl₂
      subst h1
      have h2 : rpOuts = rpOuts₂ := by
        rw [hro] at hro₂
        injection hro₂
      subst h2
      rfl
  · have hm' : truthy m = false := by
      cases hh : truthy m
      · rfl
      · exact absurd hh hm
    rw [c10_empty_model_compiles_to_empty_lists m (some ts) hm'] at h
    injection h with h1
    injection h1 with ha hb
    refine ⟨?_, ?_, ?_, ziti_transform_some_nil m⟩
    · rw [← hb, modelEntries_falsy hm']
      simp [emptyOutput, spec_selected_names]
    · rw [← hb, modelEntries_falsy hm']
      simp [emptyOutput, spec_selected_names]
    · intro m₂ out₂ h₂
      rw [c10_empty_model_compiles_to_empty_lists m none hm'] at h₂
      injection h₂ with h1'
      injection h1' with ha' hb'
      rw [← hb, ← hb']

/-- C1 as stated is false: a bounded *empty* target set does not yield empty
identities/services lists — `should_process` treats an empty list exactly
like `None` and processes every declared entry. -/
theorem c1_counterexample :
    ziti_transform (.map [("services", .list [.map [("name", .str "a")]])]) (some [])
      = .ok (.map [("services", .list [.map [("name", .str "a")]])],
          ⟨[], [], [⟨"a", ["a"], [], .bool true, .str "present"⟩], [], [], []⟩) ∧
    (⟨[], [], [⟨"a", ["a"], [], .bool true, .str "present"⟩], [], [], []⟩
        : ZitiOutput).openziti_services ≠ [] :=
  ⟨rfl, by simp⟩

theorem c1_witness :
    ([(⟨"a", ["a"], [], .bool true, .str "present"⟩ : ServiceOut)].map ServiceOut.name
      = spec_selected_names ["a"] (modelEntries
          (.map [("services", .list [.map [("name", .str "a")], .map [("name", .str "b")]]),
                 ("router_policies", .list [.map [("name", .str "rp")]])]) "services")) ∧
    ziti_transform
        (.map [("services", .list [.map [("name", .str "a")], .map [("name", .str "b")]]),
               ("router_policies", .list [.map [("name", .str "rp")]])]) (some [])
      = ziti_transform
        (.map [("services", .list [.map [("name", .str "a")], .map [("name", .str "b")]]),
               ("router_policies", .list [.map [("name", .str "rp")]])]) none := by
  have h := c1_amended_scoping
    (.map [("services", .list [.map [("name", .str "a")], .map [("name", .str "b")]]),
           ("router_policies", .list [.map [("name", .str "rp")]])])
    ["a"]
    (.map [("services", .list [.map [("name", .str "a")], .map [("name", .str "b")]]),
           ("router_policies", .list [.map [("name", .str "rp")]])])
    ⟨[], [], [⟨"a", ["a"], [], .bool true, .str "present"⟩], [],
     [⟨.str "rp", .list [.str "#all"], .list [.str "#all"], .str "AnyOf", .str "present"⟩], []⟩
    (by simp) rfl
  exact ⟨h.1, h.2.2.2⟩

/-! ## Claim C3 -/

/-- Key lookup on a model value. -/
def modelGet (m : YVal) (k : String) : Option YVal :=
  match m with
  | .map d => dictLookup d k
  | _ => none

/-- C3 amended: the transform is deterministic (a function of its two
arguments), and every difference between the returned (post-mutation) model
and the input model is confined to the `services` entries — but the input
model *is* mutated in place, so the side-effect-freedom part of the claim
fails (see the counterexample). -/
theorem c3_amended_deterministic_but_mutates_services (m : YVal)
    (t : Option (List String)) (m' : YVal) (out : ZitiOutput)
    (h : ziti_transform m t = .ok (m', out)) :
    (∀ r, ziti_transform m t = r → r = .ok (m', out)) ∧
    (∀ k, k ≠ "services" → modelGet m' k = modelGet m k) ∧
    (truthy m = false → m' = m) := by
  refine ⟨fun r hr => by rw [← hr, h], ?_, ?_⟩
  · intro k hk
    by_cases hm : truthy m = true
    · obtain ⟨dd, defaults, identsL, svcsL, rpsL, idOuts, acc, rpOuts, hmdd, -, -, -,
        -, -, -, -, -, hmut⟩ := ziti_transform_ok_parts h hm
      subst hmut
      rw [hmdd]
      simp only [modelGet]
      split
      · exact dictLookup_dictSet_ne _ _ _ _ hk
      · rfl
    · have hm' : truthy m = false := by
        cases hh : truthy m
        · rfl
        · exact absurd hh hm
      rw [c10_empty_model_compiles_to_empty_lists m t hm'] at h
      injection h with h1
      injection h1 with ha hb
      rw [← ha]
  · intro hm'
    rw [c10_empty_model_compiles_to_empty_lists m t hm'] at h
    injection h with h1
    injection h1 with ha hb
    exact ha.symm

/-- C3 as stated is false: the transform mutates its input — normalizing the
intercept payload in place — so the returned model differs from the input
model. -/
theorem c3_counterexample :
    ziti_transform
        (.map [("defaults", .map []),
               ("services", .list [.map [("name", .str "a"),
                 ("intercept", .map [("port", .int 80)])]])]) none
      = .ok (.map [("defaults", .map []),
               ("services", .list [.map [("name", .str "a"),
                 ("intercept", .map [("portRanges",
                     .list [.map [("low", .int 80), ("high", .int 80)]]),
                   ("protocols", .list [.str "tcp"])])]])],
          ⟨[], [⟨"a-intercept-v1", "intercept.v1",
                  [("portRanges", .list [.map [("low", .int 80), ("high", .int 80)]]),
                   ("protocols", .list [.str "tcp"])], .str "present"⟩],
           [⟨"a", ["a"], ["a-intercept-v1"], .bool true, .str "present"⟩], [], [], []⟩) ∧
    (.map [("defaults", .map []),
           ("services", .list [.map [("name", .str "a"),
             ("intercept", .map [("portRanges",
                 .list [.map [("low", .int 80), ("high", .int 80)]]),
               ("protocols", .list [.str "tcp"])])]])] : YVal)
      ≠ .map [("defaults", .map []),
              ("services", .list [.map [("name", .str "a"),
                ("intercept", .map [("port", .int 80)])]])] :=
  ⟨rfl, by decide⟩

theorem c3_witness :
    modelGet (.map [("defaults", .map []),
        ("services", .list [.map [("name", .str "a"),
          ("intercept", .map [("portRanges",
              .list [.map [("low", .int 80), ("high", .int 80)]]),
            ("protocols", .list [.str "tcp"])])]])]) "defaults"
      = modelGet (.map [("defaults", .map []),
          ("services", .list [.map [("name", .str "a"),
            ("intercept", .map [("port", .int 80)])]])]) "defaults" := by
  have h := c3_amended_deterministic_but_mutates_services
    (.map [("defaults", .map []),
           ("services", .list [.map [("name", .str "a"),
             ("intercept", .map [("port", .int 80)])]])]) none
    (.map [("defaults", .map []),
           ("services", .list [.map [("name", .str "a"),
             ("intercept", .map [("portRanges",
                 .list [.map [("low", .int 80), ("high", .int 80)]]),
               ("protocols", .list [.str "tcp"])])]])])
    ⟨[], [⟨"a-intercept-v1", "intercept.v1",
            [("portRanges", .list [.map [("low", .int 80), ("high", .int 80)]]),
             ("protocols", .list [.str "tcp"])], .str "present"⟩],
     [⟨"a", ["a"], ["a-intercept-v1"], .bool true, .str "present"⟩], [], [], []⟩
    rfl
  exact h.2.1 "defaults" (by decide)

/-! ## Claim C7 -/

/-- The entries of a sequence-valued key of a dict (empty when absent). -/
def seqEntries (d : Dict) (key : String) : List YVal :=
  match dictLookup d key with
  | some (.list l) => l
  | _ => []

/-- A fragment entry's top-level `name` field. -/
def entryTopName (e : YVal) : Option YVal :=
  match e with
  | .map ed => dictLookup ed "name"
  | _ => none

/-- Following the spec's wording: the top-level names of the service and
identity entries of a fragment root. -/
def spec_top_level_names (d : Dict) : List YVal :=
  (seqEntries d "services").filterMap entryTopName
    ++ (seqEntries d "identities").filterMap entryTopName

theorem inject_absent_ok {l l' : List YVal} (h : inject_absent l = .ok l') :
    ∀ e ∈ l', ∃ ed, e = .map ed ∧ dictLookup ed "state" = some (.str "absent") := by
  induction l generalizing l' with
  | nil =>
    simp only [inject_absent] at h
    cases h
    simp
  | cons a as ih =>
    simp only [inject_absent, except_bind_ok, pure, Except.pure] at h
    obtain ⟨d, hd, t, ht, heq⟩ := h
    cases heq
    intro e he
    simp only [List.mem_cons] at he
    rcases he with he | he
    · exact ⟨dictSet d "state" (.str "absent"), he, dictLookup_dictSet_self _ _ _⟩
    · exact ih ht e he

theorem force_absent_key_lookup_ne {key : String} {root root' : Dict}
    (h : force_absent_key key root = .ok root') (k : String) (hk : k ≠ key) :
    dictLookup root' k = dictLookup root k := by
  unfold force_absent_key at h
  split at h
  · simp only [except_bind_ok, pure, Except.pure] at h
    obtain ⟨l, hl, l', hl', heq⟩ := h
    cases heq
    exact dictLookup_dictSet_ne _ _ _ _ hk
  · simp only [pure, Except.pure] at h
    cases h
    rfl

theorem force_absent_key_forced {key : String} {root root' : Dict}
    (h : force_absent_key key root = .ok root') :
    ∀ e ∈ seqEntries root' key, ∃ ed, e = .map ed ∧
      dictLookup ed "state" = some (.str "absent") := by
  unfold force_absent_key at h
  split at h
  · simp only [except_bind_ok, pure, Except.pure] at h
    obtain ⟨l, hl, l', hl', heq⟩ := h
    cases heq
    intro e he
    unfold seqEntries at he
    rw [dictLookup_dictSet_self] at he
    exact inject_absent_ok hl' e he
  · rename_i hnk
    simp only [pure, Except.pure] at h
    cases h
    intro e he
    unfold seqEntries at he
    have hnone : dictLookup root key = none := by
      unfold hasKey at hnk
      cases hl : dictLookup root key
      · rfl
      · rw [hl] at hnk
        simp at hnk
    rw [hnone] at he
    simp at he

theorem force_absent_root_forced {root root' : Dict}
    (h : force_absent_root root = .ok root') :
    (∀ e ∈ seqEntries root' "services", ∃ ed, e = .map ed ∧
      dictLookup ed "state" = some (.str "absent")) ∧
    (∀ e ∈ seqEntries root' "identities", ∃ ed, e = .map ed ∧
      dictLookup ed "state" = some (.str "absent")) ∧
    (∀ k, k ≠ "services" → k ≠ "identities" → dictLookup root' k = dictLookup root k) := by
  unfold force_absent_root at h
  simp only [except_bind_ok, pure, Except.pure] at h
  obtain ⟨r1, h1, h2⟩ := h
  refine ⟨?_, force_absent_key_forced h2, ?_⟩
  · intro e he
    have hs : seqEntries root' "services" = seqEntries r1 "services" := by
      unfold seqEntries
      rw [force_absent_key_lookup_ne h2 _ (by decide)]
    rw [hs] at he
    exact force_absent_key_forced h1 e he
  · intro k hk1 hk2
    rw [force_absent_key_lookup_ne h2 k hk2, force_absent_key_lookup_ne h1 k hk1]

theorem namesOfEntries_ok {l ns : List YVal} (h : namesOfEntries l = .ok ns) :
    ns = l.filterMap entryTopName := by
  induction l generalizing ns with
  | nil =>
    simp only [namesOfEntries] at h
    cases h
    rfl
  | cons a as ih =>
    simp only [namesOfEntries, except_bind_ok, pure, Except.pure] at h
    obtain ⟨d, hd, t, ht, h⟩ := h
    have had : a = .map d := asDict_ok hd
    subst had
    cases hn : dictLookup d "name" with
    | some n =>
      rw [hn] at h
      simp only [] at h
      cases h
      simp [List.filterMap_cons, entryTopName, hn, ih ht]
    | none =>
      rw [hn] at h
      simp only [] at h
      cases h
      simp [List.filterMap_cons, entryTopName, hn, ih ht]

theorem names_under_ok {root : Dict} {key : String} {ns : List YVal}
    (h : names_under root key = .ok ns) :
    ns = (seqEntries root key).filterMap entryTopName := by
  unfold names_under at h
  split at h
  · simp only [except_bind_ok, pure, Except.pure] at h
    obtain ⟨l, hl, hno⟩ := h
    have hval : pyGet root key = .list l := asList_ok hl
    have hseq : seqEntries root key = l := by
      unfold seqEntries
      unfold pyGet at hval
      cases hlk : dictLookup root key with
      | none =>
        rw [hlk] at hval
        simp at hval
      | some v =>
        rw [hlk] at hval
        simp at hval
        rw [hval]
    rw [hseq]
    exact namesOfEntries_ok hno
  · rename_i hnk
    simp only [pure, Except.pure] at h
    cases h
    have hnone : dictLookup root key = none := by
      unfold hasKey at hnk
      cases hl : dictLookup root key
      · rfl
      · rw [hl] at hnk
        simp at hnk
    unfold seqEntries
    rw [hnone]
    rfl

theorem extract_names_ok_spec {d root : Dict} {ns : List YVal}
    (hroot : pyGetD d "ziti_deployment" (.map d) = .map root)
    (h : extract_names (.map d) = .ok ns) : ns = spec_top_level_names root := by
  unfold extract_names at h
  split at h
  · rename_i hf
    cases h
    have hd : d = [] := by simpa [truthy] using hf
    subst hd
    have hr : ([] : Dict) = root := by
      simp only [pyGetD, dictLookup, Option.getD] at hroot
      injection hroot
    rw [← hr]
    rfl
  · simp only [except_bind_ok, pure, Except.pure] at h
    obtain ⟨d0, hd0, root0, hroot0, svcN, hsvc, idN, hid, heq⟩ := h
    cases heq
    have hdd : d = d0 := by
      have := asDict_ok hd0
      injection this
    subst hdd
    rw [hroot] at hroot0
    have hrr : root = root0 := by
      have := asDict_ok hroot0
      injection this
    subst hrr
    rw [names_under_ok hsvc, names_under_ok hid]
    rfl

/-- C7: for every recovered deleted fragment whose content parses and forces
successfully, every service and identity entry of the dict that gets merged
has `state = "absent"` (whatever state the fragment declared), and the
extracted names are exactly the top-level names of those service and
identity entries. -/
theorem c7_deleted_fragment_forced_absent (parsed : YVal) (d2m : Dict)
    (names : List YVal)
    (h : process_file_deleted parsed = .ok (some (d2m, names))) :
    (∀ e ∈ seqEntries d2m "services", ∃ ed, e = .map ed ∧
      dictLookup ed "state" = some (.str "absent")) ∧
    (∀ e ∈ seqEntries d2m "identities", ∃ ed, e = .map ed ∧
      dictLookup ed "state" = some (.str "absent")) ∧
    names = spec_top_level_names d2m := by
  simp only [process_file_deleted] at h
  split at h
  · simp at h
  · rename_i fd' htry
    simp only [except_bind_ok, pure, Except.pure] at h
    obtain ⟨d2mD, hd2mD, ns, hns, heq⟩ := h
    simp only [Except.ok.injEq, Option.some.injEq, Prod.mk.injEq] at heq
    obtain ⟨hdm, hnm⟩ := heq
    subst hdm
    subst hnm
    simp only [except_bind_ok, pure, Except.pure] at htry
    obtain ⟨fd, hfd, root, hroot, root', hforce, heqf⟩ := htry
    cases heqf
    obtain ⟨hfsv, hfid, hfne⟩ := force_absent_root_forced hforce
    have hroot_eq : pyGetD
        (if hasKey fd "ziti_deployment" then dictSet fd "ziti_deployment" (.map root')
         else root') "ziti_deployment"
        (.map (if hasKey fd "ziti_deployment" then dictSet fd "ziti_deployment" (.map root')
         else root')) = .map root' := by
      split
      · unfold pyGetD
        rw [dictLookup_dictSet_self]
        rfl
      · rename_i hnk
        have hnone : dictLookup fd "ziti_deployment" = none := by
          unfold hasKey at hnk
          cases hl : dictLookup fd "ziti_deployment"
          · rfl
          · rw [hl] at hnk
            simp at hnk
        have hfile : pyOr parsed (.map []) = .map fd := asDict_ok hfd
        rw [hfile] at hroot
        have hroot_fd : root = fd := by
          unfold pyGetD at hroot
          rw [hnone] at hroot
          have := asDict_ok hroot
          injection this.symm
        have hnone' : dictLookup root' "ziti_deployment" = none := by
          rw [hfne "ziti_deployment" (by decide) (by decide), hroot_fd]
          exact hnone
        unfold pyGetD
        rw [hnone']
        rfl
    have hd2m_eq : root' = d2mD := by
      rw [hroot_eq] at hd2mD
      have := asDict_ok hd2mD
      injection this
    subst hd2m_eq
    refine ⟨hfsv, hfid, ?_⟩
    exact extract_names_ok_spec hroot_eq hns

theorem c7_witness :
    process_file_deleted (.map [("ziti_deployment", .map [("services",
        .list [.map [("name", .str "s1"), ("state", .str "present")]]),
      ("identities", .list [.map [("name", .str "i1")]])])])
      = .ok (some ([("services",
          .list [.map [("name", .str "s1"), ("state", .str "absent")]]),
        ("identities", .list [.map [("name", .str "i1"), ("state", .str "absent")]])],
        [.str "s1", .str "i1"])) ∧
    ([.str "s1", .str "i1"] : List YVal) = spec_top_level_names
      [("services", .list [.map [("name", .str "s1"), ("state", .str "absent")]]),
       ("identities", .list [.map [("name", .str "i1"), ("state", .str "absent")]])] := by
  constructor
  · rfl
  · exact (c7_deleted_fragment_forced_absent
      (.map [("ziti_deployment", .map [("services",
          .list [.map [("name", .str "s1"), ("state", .str "present")]]),
        ("identities", .list [.map [("name", .str "i1")]])])])
      [("services", .list [.map [("name", .str "s1"), ("state", .str "absent")]]),
       ("identities", .list [.map [("name", .str "i1"), ("state", .str "absent")]])]
      [.str "s1", .str "i1"] rfl).2.2
